import Mathlib

/-!
# webgraph-rag frontend: streaming chat decoder and ingestion-job tracking

A shallow embedding of the stateful logic of
`frontend/src/components/Chat.jsx` (function `send`) and
`frontend/src/pages/SourcesPage.jsx` (`pollJobStatuses`, the polling effect,
`handleSubmit`, `handleReset`, `fetchSources` and the `displayList` computation),
followed by theorems about them.

Conventions of the embedding.

* A JavaScript string is a list of characters (`JSString`); positions count characters.
  The text the decoder accumulates comes out of `TextDecoder.decode`, which only
  produces well-formed text, and the only character searched for is a brace, so the
  split is the same as on UTF-16 code units.
* React state is an explicit record; a state setter called with an updater `f` is the
  record update with `f`.  `setJobs` is always called with a fresh object, so the
  component renders again and the effect that depends on `jobs` is run again (cleanup
  first).
* Everything the components do to the outside world (requests, toasts, log lines) is
  recorded as a list of `Effect`s, in program order.
* A promise that rejects is the `none` / `rejected` case of the value that models the
  outcome of the request.  Response bodies have the shape the backend contract gives
  them.
* Both components are driven by events, and the component has rendered (its pending
  state updates are applied) before the next event.  The poller of the page is given
  twice: `SourcesPage.step` runs a tick to completion, `SourcesPage.astep` takes its
  requests one at a time, so that invocations overlap and settle in any order.
-/

set_option autoImplicit false

/-! ## JavaScript strings -/

/-- A JavaScript string, as the list of its characters. -/
abbrev JSString := List Char

namespace JSString

/-- The method `String.prototype.lastIndexOf(c)` for a one-character needle: the index
of the last occurrence of `c`, or `-1`. -/
def lastIndexOf (s : JSString) (c : Char) : Int :=
  match s with
  | [] => -1
  | x :: rest =>
    let r := lastIndexOf rest c
    if r ≠ -1 then r + 1 else if x = c then 0 else -1

/-- Argument clamping of `substring`: negative values count as `0`, values past
the end as the length. -/
def clampIndex (s : JSString) (i : Int) : Nat :=
  min i.toNat s.length

/-- The method `String.prototype.substring(start, end)`; `none` for an omitted `end`.
The two clamped bounds are swapped when `start` exceeds `end`. -/
def substring (s : JSString) (start : Int) (stop : Option Int) : JSString :=
  let a := clampIndex s start
  let b := match stop with
    | none => s.length
    | some e => clampIndex s e
  (s.take (max a b)).drop (min a b)

/-- The characters removed by `String.prototype.trim`: the ECMAScript `WhiteSpace` and
`LineTerminator` code points. -/
def isTrimChar (c : Char) : Bool :=
  let n := c.toNat
  n = 0x09 || n = 0x0A || n = 0x0B || n = 0x0C || n = 0x0D || n = 0x20 ||
  n = 0xA0 || n = 0x1680 || (0x2000 ≤ n && n ≤ 0x200A) || n = 0x2028 ||
  n = 0x2029 || n = 0x202F || n = 0x205F || n = 0x3000 || n = 0xFEFF

/-- The method `String.prototype.trim`. -/
def trim (s : JSString) : JSString :=
  ((s.dropWhile isTrimChar).reverse.dropWhile isTrimChar).reverse

end JSString

/-! ## The platform function `JSON.parse`

Only what the decoder observes is modelled: whether a text is accepted and the value
it denotes.  The grammar is that of ECMA-404.  Numbers are kept as exact decimals
`mantissa * 10 ^ exp10` (no rounding to a double) and object members as written, in
order. -/

/-- A parsed JSON value. -/
inductive Json where
  | null
  | bool (b : Bool)
  | num (mantissa : Int) (exp10 : Int)
  | str (s : JSString)
  | arr (elems : List Json)
  | obj (members : List (JSString × Json))

namespace JSON

/-- JSON insignificant whitespace: space, tab, line feed, carriage return. -/
def isWs (c : Char) : Bool :=
  c = ' ' || c = '\t' || c = '\n' || c = '\r'

/-- The text without its leading whitespace. -/
def skipWs (cs : List Char) : List Char := cs.dropWhile isWs

/-- The decimal digits. -/
def isDigit (c : Char) : Bool := 48 ≤ c.toNat && c.toNat ≤ 57

/-- Value of a run of decimal digits, most significant first. -/
def digitsVal (ds : List Char) : Nat :=
  ds.foldl (fun acc d => 10 * acc + (d.toNat - 48)) 0

/-- Value of one hexadecimal digit. -/
def hexVal (c : Char) : Option Nat :=
  let n := c.toNat
  if 48 ≤ n ∧ n ≤ 57 then some (n - 48)
  else if 65 ≤ n ∧ n ≤ 70 then some (n - 55)
  else if 97 ≤ n ∧ n ≤ 102 then some (n - 87)
  else none

/-- The code unit denoted by a four-digit hexadecimal escape. -/
def hex4 (a b c d : Char) : Option Nat :=
  match hexVal a, hexVal b, hexVal c, hexVal d with
  | some w, some x, some y, some z => some (((w * 16 + x) * 16 + y) * 16 + z)
  | _, _, _, _ => none

/-- UTF-16 code units of one character. -/
def unitsOf (c : Char) : List Nat :=
  let n := c.toNat
  if n < 0x10000 then [n]
  else [0xD800 + (n - 0x10000) / 0x400, 0xDC00 + (n - 0x10000) % 0x400]

/-- Characters of a sequence of UTF-16 code units; a surrogate without its partner
is shown as U+FFFD. -/
def ofUnits : List Nat → JSString
  | [] => []
  | [u] => [if 0xD800 ≤ u ∧ u ≤ 0xDFFF then Char.ofNat 0xFFFD else Char.ofNat u]
  | u :: v :: rest =>
    if 0xD800 ≤ u ∧ u ≤ 0xDBFF ∧ 0xDC00 ≤ v ∧ v ≤ 0xDFFF then
      Char.ofNat (0x10000 + (u - 0xD800) * 0x400 + (v - 0xDC00)) :: ofUnits rest
    else if 0xD800 ≤ u ∧ u ≤ 0xDFFF then Char.ofNat 0xFFFD :: ofUnits (v :: rest)
    else Char.ofNat u :: ofUnits (v :: rest)

/-- Body of a string literal, after the opening quote: the code units read so far
are in `acc` (reversed); returns the string and the text after the closing quote. -/
def parseStringBody : Nat → List Char → List Nat → Option (JSString × List Char)
  | 0, _, _ => none
  | fuel + 1, cs, acc =>
    match cs with
    | [] => none
    | c :: r =>
      if c = '"' then some (ofUnits acc.reverse, r)
      else if c = '\\' then
        match r with
        | [] => none
        | e :: r1 =>
          if e = '"' then parseStringBody fuel r1 (0x22 :: acc)
          else if e = '\\' then parseStringBody fuel r1 (0x5C :: acc)
          else if e = '/' then parseStringBody fuel r1 (0x2F :: acc)
          else if e = 'b' then parseStringBody fuel r1 (0x08 :: acc)
          else if e = 'f' then parseStringBody fuel r1 (0x0C :: acc)
          else if e = 'n' then parseStringBody fuel r1 (0x0A :: acc)
          else if e = 'r' then parseStringBody fuel r1 (0x0D :: acc)
          else if e = 't' then parseStringBody fuel r1 (0x09 :: acc)
          else if e = 'u' then
            match r1 with
            | h1 :: h2 :: h3 :: h4 :: r2 =>
              match hex4 h1 h2 h3 h4 with
              | some u => parseStringBody fuel r2 (u :: acc)
              | none => none
            | _ => none
          else none
      else if c.toNat < 0x20 then none
      else parseStringBody fuel r ((unitsOf c).reverse ++ acc)

/-- A number literal at the head of the text. -/
def parseNumber (cs : List Char) : Option (Json × List Char) :=
  let neg := cs.head? = some '-'
  let cs1 := if neg then cs.drop 1 else cs
  let intPart : Option (List Char × List Char) :=
    match cs1 with
    | [] => none
    | c :: r =>
      if c = '0' then some ([c], r)
      else if isDigit c then some (c :: r.takeWhile isDigit, r.dropWhile isDigit)
      else none
  match intPart with
  | none => none
  | some (ints, cs2) =>
    let fracPart : Option (List Char × List Char) :=
      match cs2 with
      | c :: r =>
        if c = '.' then
          (if (r.takeWhile isDigit).isEmpty then none
           else some (r.takeWhile isDigit, r.dropWhile isDigit))
        else some ([], cs2)
      | [] => some ([], cs2)
    match fracPart with
    | none => none
    | some (fracs, cs3) =>
      let expPart : Option (Int × List Char) :=
        match cs3 with
        | c :: r =>
          if c = 'e' ∨ c = 'E' then
            let eneg := r.head? = some '-'
            let r1 := if r.head? = some '-' ∨ r.head? = some '+' then r.drop 1 else r
            if (r1.takeWhile isDigit).isEmpty then none
            else
              let v : Int := digitsVal (r1.takeWhile isDigit)
              some (if eneg then -v else v, r1.dropWhile isDigit)
          else some (0, cs3)
        | [] => some (0, cs3)
      match expPart with
      | none => none
      | some (e, cs4) =>
        let m : Int := digitsVal (ints ++ fracs)
        some (Json.num (if neg then -m else m) (e - fracs.length), cs4)

mutual

/-- One JSON value at the head of the text (leading whitespace allowed); returns the
value and the remaining text. -/
def parseValue : Nat → List Char → Option (Json × List Char)
  | 0, _ => none
  | fuel + 1, cs =>
    match skipWs cs with
    | [] => none
    | c :: r =>
      if c = '{' then
        match skipWs r with
        | '}' :: r1 => some (Json.obj [], r1)
        | _ => (parseMembers fuel r []).map (fun p => (Json.obj p.1, p.2))
      else if c = '[' then
        match skipWs r with
        | ']' :: r1 => some (Json.arr [], r1)
        | _ => (parseElems fuel r []).map (fun p => (Json.arr p.1, p.2))
      else if c = '"' then
        (parseStringBody (r.length + 1) r []).map (fun p => (Json.str p.1, p.2))
      else if c = 't' then
        (if r.take 3 = ['r', 'u', 'e'] then some (Json.bool true, r.drop 3) else none)
      else if c = 'f' then
        (if r.take 4 = ['a', 'l', 's', 'e'] then some (Json.bool false, r.drop 4) else none)
      else if c = 'n' then
        (if r.take 3 = ['u', 'l', 'l'] then some (Json.null, r.drop 3) else none)
      else parseNumber (c :: r)

/-- Elements of a non-empty array, up to and including the closing bracket. -/
def parseElems : Nat → List Char → List Json → Option (List Json × List Char)
  | 0, _, _ => none
  | fuel + 1, cs, acc =>
    match parseValue fuel cs with
    | none => none
    | some (v, r) =>
      match skipWs r with
      | ',' :: r1 => parseElems fuel r1 (v :: acc)
      | ']' :: r1 => some ((v :: acc).reverse, r1)
      | _ => none

/-- Members of a non-empty object, up to and including the closing brace. -/
def parseMembers : Nat → List Char → List (JSString × Json) →
    Option (List (JSString × Json) × List Char)
  | 0, _, _ => none
  | fuel + 1, cs, acc =>
    match skipWs cs with
    | '"' :: r =>
      match parseStringBody (r.length + 1) r [] with
      | none => none
      | some (k, r1) =>
        match skipWs r1 with
        | ':' :: r2 =>
          match parseValue fuel r2 with
          | none => none
          | some (v, r3) =>
            match skipWs r3 with
            | ',' :: r4 => parseMembers fuel r4 ((k, v) :: acc)
            | '}' :: r4 => some (((k, v) :: acc).reverse, r4)
            | _ => none
        | _ => none
    | _ => none

end

/-- The function `JSON.parse(text)`: `none` stands for the thrown `SyntaxError`.  The whole text
must be one value surrounded by optional whitespace. -/
def parse (text : JSString) : Option Json :=
  match parseValue (text.length + 1) text with
  | some (v, r) => if (skipWs r).isEmpty then some v else none
  | none => none

end JSON

/-! ## Chat.jsx -/

namespace Chat

/-- The tag `from` of a chat message: the strings `user`, `bot` and `bot_temp`. -/
inductive Sender where
  | user
  | bot
  | bot_temp
  deriving DecidableEq

/-- A chat message `{from, text, footer}`.  `footer` is `none` both when the field is
missing (user and error messages) and when it is `null`. -/
structure Message where
  from_ : Sender
  text : JSString
  footer : Option Json

/-- State of the `Chat` component: the three `useState` cells and `streamRef.current`. -/
structure State where
  q : JSString
  messages : List Message
  loading : Bool
  streamRef : JSString

/-- Requests issued by the component. -/
inductive Effect where
  /-- The request `POST /api/chat_stream` with body `{query}`. -/
  | postChatStream (query : JSString)

/-- Outcome of one `await reader.read()`. -/
inductive ReadResult where
  /-- The promise resolved with `{value, done}`; `value` is given by the text
  `decoder.decode(value)` and is `none` when the field is `undefined`. -/
  | resolved (value : Option JSString) (done : Bool)
  /-- The promise rejected; the payload is `String(e)`. -/
  | rejected (e : JSString)

/-- Outcome of `await fetch(..)` followed by `resp.body.getReader()`. -/
inductive FetchOutcome where
  /-- The request failed, or there is no body to read; the payload is `String(e)`. -/
  | rejected (e : JSString)
  /-- A reader was obtained; `reads` are the outcomes of its successive `read()` calls
  that have arrived. -/
  | stream (reads : List ReadResult)

/-- The predicate `x => x.from !== 'bot_temp'`. -/
def notTemp (x : Message) : Bool := x.from_ ≠ Sender.bot_temp

/-- Lines 13-15: the user message is appended, `loading` is set and the buffer is reset. -/
def sendStart (st : State) : State :=
  { st with
    messages := st.messages ++ [{ from_ := .user, text := st.q, footer := none }]
    loading := true
    streamRef := [] }

/-- Lines 28-37: a chunk is appended to the buffer and the temporary bot message is
replaced by one that shows the whole buffer.  The updater passed to `setMessages` reads
`streamRef.current` when it is applied; it is applied before the next event, so what it
reads is the buffer as just extended. -/
def onChunk (text : JSString) (st : State) : State :=
  let buf := st.streamRef ++ text
  { st with
    streamRef := buf
    messages := st.messages.filter notTemp ++
      [{ from_ := .bot_temp, text := buf, footer := none }] }

/-- How the loop `while(!done)` of lines 25-38 stands after the reads that have arrived. -/
inductive LoopOutcome where
  /-- A read reported `done`: the loop has exited. -/
  | closed (st : State)
  /-- A read rejected: control passes to the outer `catch`. -/
  | threw (e : JSString) (st : State)
  /-- All reads that arrived were consumed and none reported `done`: the function is
  suspended at `await reader.read()`. -/
  | awaiting (st : State)

/-- Lines 25-38. -/
def readLoop : List ReadResult → State → LoopOutcome
  | [], st => .awaiting st
  | .rejected e :: _, st => .threw e st
  | .resolved value done :: rest, st =>
    let st1 := match value with
      | some text => onChunk text st
      | none => st
    if done then .closed st1 else readLoop rest st1

/-- Lines 40-50: the footer split of the accumulated text `all`, giving
`(finalText, footer)`. -/
def splitFooter (all : JSString) : JSString × Option Json :=
  let lastBrace := JSString.lastIndexOf all '{'
  if lastBrace ≠ -1 then
    match JSON.parse (JSString.substring all lastBrace none) with
    | some v => (JSString.substring all 0 (some lastBrace), some v)
    | none => (all, none)
  else (all, none)

/-- Lines 40-55: the temporary message is replaced by the final bot message. -/
def finalize (st : State) : State :=
  let r := splitFooter st.streamRef
  { st with
    messages := st.messages.filter notTemp ++ [{ from_ := .bot, text := r.1, footer := r.2 }] }

/-- Lines 56-57: the outer `catch` appends an error message. -/
def onError (e : JSString) (st : State) : State :=
  { st with
    messages := st.messages ++
      [{ from_ := .bot, text := "Error: ".toList ++ e, footer := none }] }

/-- Lines 58-61: the `finally` block. -/
def finallyBlock (st : State) : State :=
  { st with loading := false, q := [] }

/-- What a call of `send` has done once the outcomes in hand are consumed. -/
structure SendResult where
  state : State
  effects : List Effect
  /-- Whether `send` has returned (`false`: it is suspended at a `read`). -/
  finished : Bool

/-- The function `send` (lines 11-62), run on the state `st` against the outcome `net` of
its request. -/
def send (st : State) (net : FetchOutcome) : SendResult :=
  if st.q.isEmpty then
    { state := st, effects := [], finished := true }
  else
    let st1 := sendStart st
    let req := [Effect.postChatStream st.q]
    match net with
    | .rejected e =>
      { state := finallyBlock (onError e st1), effects := req, finished := true }
    | .stream reads =>
      match readLoop reads st1 with
      | .closed st2 =>
        { state := finallyBlock (finalize st2), effects := req, finished := true }
      | .threw e st2 =>
        { state := finallyBlock (onError e st2), effects := req, finished := true }
      | .awaiting st2 =>
        { state := st2, effects := req, finished := false }

/-- Text delivered by the reads, up to the first read that reports `done` or rejects. -/
def received : List ReadResult → JSString
  | [] => []
  | .rejected _ :: _ => []
  | .resolved value done :: rest => value.getD [] ++ (if done then [] else received rest)

/-- Whether the reads end with the stream closing: some read reports `done` and no read
before it rejects. -/
def closesNormally : List ReadResult → Bool
  | [] => false
  | .rejected _ :: _ => false
  | .resolved _ done :: rest => done || closesNormally rest

/-- The component while it is used: its state, with the calls of `send` that are under
way.  All calls share the state, `streamRef` included. -/
structure Session where
  state : State
  /-- Number of calls of `send` suspended at `await fetch`. -/
  pending : Nat
  /-- Number of calls of `send` suspended at `await reader.read()`. -/
  reading : Nat

/-- What can happen to the component. -/
inductive Event where
  /-- The user edits the input (line 83). -/
  | input (value : JSString)
  /-- The user clicks the button (line 87). -/
  | click
  /-- The user presses a key in the input (line 84). -/
  | keyPress (key : JSString)
  /-- The request of a call of `send` fails; the payload is `String(e)`. -/
  | fetchRejected (e : JSString)
  /-- The response of a call of `send` arrives and its reader is obtained. -/
  | fetchResolved
  /-- A `reader.read()` of a call of `send` resolves, as in `ReadResult.resolved`. -/
  | read (value : Option JSString) (done : Bool)
  /-- A `reader.read()` of a call of `send` rejects; the payload is `String(e)`. -/
  | readRejected (e : JSString)

/-- Lines 12-21: a call of `send`, up to its `await fetch`. -/
def invoke (s : Session) : Session × List Effect :=
  if s.state.q.isEmpty then (s, [])
  else
    ({ s with state := sendStart s.state, pending := s.pending + 1 },
      [Effect.postChatStream s.state.q])

/-- Line 87: the button calls `send`; it is disabled while `loading`, and a disabled
button does not react to clicks. -/
def onClick (s : Session) : Session × List Effect :=
  if s.state.loading then (s, []) else invoke s

/-- Line 84: the handler `e => e.key === 'Enter' && send()`. -/
def onKeyPress (key : JSString) (s : Session) : Session × List Effect :=
  if key = "Enter".toList then invoke s else (s, [])

/-- One event.  A response or a read can only arrive for a call of `send` that waits
for it; otherwise nothing happens. -/
def step (s : Session) : Event → Session × List Effect
  | .input value => ({ s with state := { s.state with q := value } }, [])
  | .click => onClick s
  | .keyPress key => onKeyPress key s
  | .fetchRejected e =>
    if s.pending = 0 then (s, [])
    else ({ s with state := finallyBlock (onError e s.state), pending := s.pending - 1 }, [])
  | .fetchResolved =>
    if s.pending = 0 then (s, [])
    else ({ s with pending := s.pending - 1, reading := s.reading + 1 }, [])
  | .read value done =>
    if s.reading = 0 then (s, [])
    else
      let st1 := match value with
        | some text => onChunk text s.state
        | none => s.state
      if done then
        ({ s with state := finallyBlock (finalize st1), reading := s.reading - 1 }, [])
      else ({ s with state := st1 }, [])
  | .readRejected e =>
    if s.reading = 0 then (s, [])
    else ({ s with state := finallyBlock (onError e s.state), reading := s.reading - 1 }, [])

/-- A sequence of events, with the requests issued, in order. -/
def run : List Event → Session → Session × List Effect
  | [], s => (s, [])
  | e :: rest, s =>
    let r := step s e
    let r2 := run rest r.1
    (r2.1, r.2 ++ r2.2)

/-- The component after its first render, no call of `send` under way. -/
def start : Session :=
  { state := { q := [], messages := [], loading := false, streamRef := [] }
    pending := 0
    reading := 0 }

/-- Number of temporary bot messages in a message sequence. -/
def tempCount (messages : List Message) : Nat :=
  messages.countP (fun m => m.from_ = Sender.bot_temp)

/-- A read outcome as an event of the session. -/
def ReadResult.toEvent : ReadResult → Event
  | .resolved value done => Event.read value done
  | .rejected e => Event.readRejected e

end Chat

/-! ## SourcesPage.jsx -/

namespace SourcesPage

/-- One entry of a job's `sub_steps`. -/
structure Step where
  name : JSString
  status : JSString
  detail : Option JSString
  deriving DecidableEq

/-- The object stored under a job id in `jobs`: the body of a status response, or the
placeholder written by `handleSubmit`. -/
structure Job where
  status : JSString
  main_progress : JSString
  sub_steps : List Step
  deriving DecidableEq

/-- An element of `sources`, as listed by the backend. -/
structure Source where
  title : JSString
  url : JSString
  deriving DecidableEq

/-- A job id, as carried by the crawl response and used as key of `jobs`. -/
abbrev JobId := JSString

/-- The four status strings of the backend, and the status `skipped` of a crawl
response. -/
def pending : JSString := "pending".toList

def running : JSString := "running".toList

def completed : JSString := "completed".toList

def failed : JSString := "failed".toList

def skipped : JSString := "skipped".toList

/-- The test `status === 'pending' || status === 'running'`. -/
def isActive (j : Job) : Bool := j.status = pending || j.status = running

/-- The test `status === 'completed' || status === 'failed'`. -/
def isTerminal (j : Job) : Bool := j.status = completed || j.status = failed

/-- Whether a property key is an array index: a canonical decimal numeral at most
`2^32 - 2`.  Such keys are enumerated first, in numeric order. -/
def isArrayIndex (k : JSString) : Bool :=
  match k with
  | [] => false
  | c :: r =>
    JSON.isDigit c && r.all JSON.isDigit && (c ≠ '0' || r.isEmpty) &&
      JSON.digitsVal k < 4294967295

/-- Place of a new array-index key: after the array-index keys that are smaller. -/
def insertIndexKey (k : JobId) (v : Job) : List (JobId × Job) → List (JobId × Job)
  | [] => [(k, v)]
  | e :: rest =>
    if isArrayIndex e.1 && JSON.digitsVal e.1 < JSON.digitsVal k then
      e :: insertIndexKey k v rest
    else (k, v) :: e :: rest

/-- Property assignment on the entries of an object, in key enumeration order: an
existing key keeps its place, a new key is created (array indices in numeric order
ahead of the other keys, other keys at the end). -/
def setEntries (es : List (JobId × Job)) (k : JobId) (v : Job) : List (JobId × Job) :=
  if k ∈ es.map Prod.fst then es.map (fun e => if e.1 = k then (k, v) else e)
  else if isArrayIndex k then insertIndexKey k v es
  else es ++ [(k, v)]

theorem insertIndexKey_perm (k : JobId) (v : Job) (es : List (JobId × Job)) :
    (insertIndexKey k v es).Perm ((k, v) :: es) := by
  induction es with
  | nil => simp [insertIndexKey]
  | cons e rest ih =>
    unfold insertIndexKey
    split
    · exact ((List.Perm.cons e ih).trans (List.Perm.swap _ _ _))
    · exact List.Perm.refl _

theorem setEntries_nodup (es : List (JobId × Job)) (k : JobId) (v : Job)
    (h : (es.map Prod.fst).Nodup) : ((setEntries es k v).map Prod.fst).Nodup := by
  unfold setEntries
  split
  · have hk : (es.map (fun e => if e.1 = k then (k, v) else e)).map Prod.fst
        = es.map Prod.fst := by
      rw [List.map_map]
      apply List.map_congr_left
      intro e _
      by_cases he : e.1 = k <;> simp [he]
    rw [hk]; exact h
  · rename_i hmem
    split
    · have hp := (insertIndexKey_perm k v es).map Prod.fst
      rw [hp.nodup_iff]
      exact List.nodup_cons.mpr ⟨hmem, h⟩
    · rw [List.map_append]
      refine List.Nodup.append h (List.nodup_singleton _) ?_
      intro a ha hb
      rw [List.map_singleton, List.mem_singleton] at hb
      have hb2 : a = k := hb
      rw [hb2] at ha
      exact hmem ha

/-- The `jobs` object: its own properties in the order `Object.keys` enumerates them.
Keys are distinct. -/
structure Jobs where
  entries : List (JobId × Job)
  nodup : (entries.map Prod.fst).Nodup

namespace Jobs

/-- The object `{}`. -/
def empty : Jobs := ⟨[], List.nodup_nil⟩

/-- The list `Object.keys(jobs)`. -/
def keys (o : Jobs) : List JobId := o.entries.map Prod.fst

/-- The list `Object.values(jobs)`. -/
def values (o : Jobs) : List Job := o.entries.map Prod.snd

/-- The property read `jobs[jobId]`; `none` is `undefined`. -/
def get (o : Jobs) (k : JobId) : Option Job :=
  (o.entries.find? (fun e => e.1 = k)).map Prod.snd

/-- The object `{ ...prev, [k]: v }`. -/
def set (o : Jobs) (k : JobId) (v : Job) : Jobs :=
  ⟨setEntries o.entries k v, setEntries_nodup o.entries k v o.nodup⟩

end Jobs

/-- Content of one of the two numeric form fields. -/
inductive FieldValue where
  /-- The config response has no such field. -/
  | undefined
  | null
  /-- Text of the input element (also the initial empty string). -/
  | text (s : JSString)
  /-- A number taken from the config response or from the fallback defaults. -/
  | number (n : Int)
  deriving DecidableEq

/-- JavaScript truthiness of a field value. -/
def FieldValue.truthy : FieldValue → Bool
  | .undefined => false
  | .null => false
  | .text s => !s.isEmpty
  | .number n => n ≠ 0

/-- A field that holds no value: `undefined`, `null` or the empty text. -/
def FieldValue.absent (v : FieldValue) : Prop :=
  v = .undefined ∨ v = .null ∨ v = .text []

/-- A scheduled interval timer: its handle and the `jobs` value that the scheduled
callback `pollJobStatuses` closes over. -/
structure Timer where
  handle : Nat
  jobs : Jobs

/-- State of the page: the `useState` cells, `intervalRef.current`, and the timers of
the window that are scheduled.  A timer handle is a positive integer, hence truthy: the
tests on `intervalRef.current` are tests for `some`. -/
structure State where
  url : JSString
  maxPages : FieldValue
  maxDepth : FieldValue
  sources : List Source
  jobs : Jobs
  isLoading : Bool
  error : Option JSString
  isInitialLoad : Bool
  intervalRef : Option Nat
  /-- Intervals set and not yet cleared. -/
  timers : List Timer
  /-- The handle the next `setInterval` returns. -/
  nextHandle : Nat

/-- What the page does to the outside world. -/
inductive Effect where
  | toastWarn (msg : JSString)
  | toastSuccess (msg : JSString)
  | toastInfo (msg : JSString)
  | toastError (msg : JSString)
  | consoleError (msg : JSString)
  /-- The request `GET /api/config`. -/
  | getConfig
  /-- The request `GET /api/sources` issued by `fetchSources`. -/
  | getSources
  /-- The request `GET /api/ingestion_status/<jobId>`. -/
  | getIngestionStatus (jobId : JobId)
  /-- The request `POST /api/crawl`; the two bounds are the field values to which
  `Number` is applied. -/
  | postCrawl (urls : List JSString) (max_pages max_depth : FieldValue)
  /-- The request `POST /api/reset_knowledge_base`. -/
  | postReset
  /-- The dialog `window.confirm`. -/
  | confirm (msg : JSString)
  deriving DecidableEq

/-- Whether an effect is a request to the backend. -/
def Effect.isNetworkCall : Effect → Bool
  | .getConfig => true
  | .getSources => true
  | .getIngestionStatus _ => true
  | .postCrawl _ _ _ => true
  | .postReset => true
  | _ => false

/-- The call `clearInterval(h)`. -/
def clearInterval (h : Nat) (st : State) : State :=
  { st with timers := st.timers.filter (fun t => t.handle ≠ h) }

/-- Lines 129-132, the body of the polling effect, run for the render whose job map is
`st.jobs`. -/
def pollingEffect (st : State) : State :=
  let hasActiveJobs := st.jobs.values.any (fun j => j.status = pending || j.status = running)
  if hasActiveJobs && st.intervalRef.isNone then
    { st with
      intervalRef := some st.nextHandle
      timers := st.timers ++ [{ handle := st.nextHandle, jobs := st.jobs }]
      nextHandle := st.nextHandle + 1 }
  else st

/-- Lines 134-139, the cleanup of the polling effect. -/
def pollingCleanup (st : State) : State :=
  match st.intervalRef with
  | some h => { clearInterval h st with intervalRef := none }
  | none => st

/-- The call `setJobs(f)`: the new object is stored and the component renders again; as
`jobs` is the dependency of the polling effect, its cleanup runs and then its body. -/
def setJobs (f : Jobs → Jobs) (st : State) : State :=
  pollingEffect (pollingCleanup { st with jobs := f st.jobs })

/-- Line 98: the ids whose job is pending or running in `jobs`. -/
def activeJobs (jobs : Jobs) : List JobId :=
  jobs.keys.filter (fun jobId =>
    match jobs.get jobId with
    | some j => j.status = pending || j.status = running
    | none => false)

/-- Lines 108-121: the loop over `activeJobs`; `fetch jobId` is the body of the status
response, `none` when the request fails. -/
def pollLoop (fetch : JobId → Option Job) : List JobId → State → State × List Effect
  | [], st => (st, [])
  | jobId :: rest, st =>
    match fetch jobId with
    | some jobData =>
      let st1 := setJobs (fun prev => prev.set jobId jobData) st
      let refresh :=
        if jobData.status = completed || jobData.status = failed then [Effect.getSources]
        else []
      let r := pollLoop fetch rest st1
      (r.1, Effect.getIngestionStatus jobId :: (refresh ++ r.2))
    | none =>
      let r := pollLoop fetch rest st
      (r.1, Effect.getIngestionStatus jobId ::
        Effect.consoleError ("Failed to get status for job ".toList ++ jobId) :: r.2)

/-- Lines 97-122: the function `pollJobStatuses` of the render whose job map is `jobs`, run on the
current state `st`. -/
def pollJobStatuses (jobs : Jobs) (fetch : JobId → Option Job) (st : State) :
    State × List Effect :=
  let active := activeJobs jobs
  if active.length = 0 then
    (match st.intervalRef with
      | some h => { clearInterval h st with intervalRef := none }
      | none => st, [])
  else pollLoop fetch active st

/-- Body of a successful response of `POST /api/crawl`; `job_id` is `none` when the field
is missing or `null`. -/
structure CrawlResponse where
  job_id : Option JobId
  message : JSString
  status : JSString

/-- Lines 168-172: the entry written for a newly started job. -/
def placeholderJob : Job :=
  { status := pending
    main_progress := "Waiting for job to start...".toList
    sub_steps := [] }

/-- Line 144: the condition under which `handleSubmit` stops with a warning. -/
def rejects (st : State) : Bool :=
  (JSString.trim st.url).isEmpty || !st.maxPages.truthy || !st.maxDepth.truthy

/-- Lines 142-184: the function `handleSubmit`; `resp` is the body of the response to the crawl
request, `none` when the request fails. -/
def handleSubmit (st : State) (resp : Option CrawlResponse) : State × List Effect :=
  if rejects st then
    (st, [Effect.toastWarn "Please fill in all fields.".toList])
  else
    let st1 := { st with isLoading := true, error := none }
    let req := Effect.postCrawl [st.url] st.maxPages st.maxDepth
    match resp with
    | some r =>
      if r.status = skipped then
        ({ st1 with url := [], isLoading := false }, [req, Effect.toastSuccess r.message])
      else
        let st2 := match r.job_id with
          | some job_id =>
            if job_id.isEmpty then st1
            else setJobs (fun prev => prev.set job_id placeholderJob) st1
          | none => st1
        ({ st2 with url := [], isLoading := false }, [req, Effect.toastInfo r.message])
    | none =>
      let errorMsg := "Failed to start ingestion. Is the backend running?".toList
      ({ st1 with error := some errorMsg, isLoading := false },
        [req, Effect.toastError errorMsg])

/-- Lines 186-197: the function `handleReset`; `confirmed` is the answer to the dialog and
`resp` the message of the response, `none` when the request fails. -/
def handleReset (st : State) (confirmed : Bool) (resp : Option JSString) :
    State × List Effect :=
  let ask := Effect.confirm
    ("Are you sure you want to delete the entire knowledge base? ".toList ++
      "This action cannot be undone.".toList)
  if confirmed then
    match resp with
    | some message =>
      (setJobs (fun _ => Jobs.empty) st,
        [ask, Effect.postReset, Effect.toastSuccess message, Effect.getSources])
    | none =>
      (st, [ask, Effect.postReset,
        Effect.toastError "Failed to reset knowledge base.".toList])
  else (st, [ask])

/-- Lines 84-94: what `fetchSources` does once its request has settled.  `initialLoad`
is the value of `isInitialLoad` in the render that created the function; `resp` is
`none` for a failed request, otherwise the `sources` field of the body (if truthy). -/
def fetchSourcesSettled (initialLoad : Bool) (resp : Option (Option (List Source)))
    (st : State) : State :=
  let msg : JSString :=
    "Failed to fetch sources. Please ensure the backend is running ".toList ++
      "and refresh.".toList
  let st1 := match resp with
    | some data => { st with sources := data.getD [], error := none }
    | none => if !initialLoad then { st with error := some msg } else st
  { st1 with isInitialLoad := false }

/-- Lines 71-77: what `fetchConfig` does once its request has settled; `resp` is `none`
for a failed request, otherwise the two default fields of the body. -/
def fetchConfigSettled (resp : Option (FieldValue × FieldValue)) (st : State) : State :=
  match resp with
  | some (pages, depth) => { st with maxPages := pages, maxDepth := depth }
  | none => { st with maxPages := .number 20, maxDepth := .number 2 }

/-- A row of `displayList`: a source as listed, or the object built at lines 205-211
(`status` and `sub_steps` are `none` where the row has no such field). -/
structure DisplayRow where
  title : JSString
  url : JSString
  isJob : Bool
  status : Option JSString
  sub_steps : Option (List Step)
  deriving DecidableEq

/-- A listed source seen as a row. -/
def sourceRow (s : Source) : DisplayRow :=
  { title := s.title, url := s.url, isJob := false, status := none, sub_steps := none }

/-- Lines 205-211. -/
def jobRow (jobId : JobId) (job : Job) : DisplayRow :=
  { title := job.main_progress
    url := jobId
    isJob := true
    status := some job.status
    sub_steps := some job.sub_steps }

/-- Lines 199-213: the array `displayList` after the `forEach`. -/
def displayList (sources : List Source) (jobs : Jobs) : List DisplayRow :=
  let activeJobIds := jobs.keys
  activeJobIds.foldl
    (fun displayList jobId =>
      match jobs.get jobId with
      | some job =>
        if job.status = pending || job.status = running then jobRow jobId job :: displayList
        else displayList
      | none => displayList)
    (sources.map sourceRow)

/-- Rows of the pending and running jobs, in the key order of the job map. -/
def activeRows (jobs : Jobs) : List DisplayRow :=
  (jobs.entries.filter (fun e => isActive e.2)).map (fun e => jobRow e.1 e.2)

/-- The state of the first render. -/
def initial : State :=
  { url := []
    maxPages := .text []
    maxDepth := .text []
    sources := []
    jobs := Jobs.empty
    isLoading := false
    error := none
    isInitialLoad := true
    intervalRef := none
    timers := []
    nextHandle := 1 }

/-- The page after its first render: the three effects have run (lines 68-81, 124-126
and 128-140). -/
def mounted : State := pollingEffect initial

/-- The requests issued by the first render. -/
def mountEffects : List Effect := [Effect.getConfig, Effect.getSources]

/-- What can happen to the mounted page, each event handled to completion before the
next one.  For a tick this is the case in which the status requests of the invocation
all settle before anything else happens; `Async` below takes the requests one at a
time. -/
inductive Event where
  | setUrl (value : JSString)
  | setMaxPages (value : JSString)
  | setMaxDepth (value : JSString)
  | configSettled (resp : Option (FieldValue × FieldValue))
  | sourcesSettled (initialLoad : Bool) (resp : Option (Option (List Source)))
  /-- The form is submitted; `resp` as in `handleSubmit`. -/
  | submit (resp : Option CrawlResponse)
  /-- The reset button is pressed; arguments as in `handleReset`. -/
  | reset (confirmed : Bool) (resp : Option JSString)
  /-- The scheduled interval fires; `fetch` as in `pollLoop`. -/
  | tick (fetch : JobId → Option Job)

/-- Whether the event is a submission of the form. -/
def Event.isSubmit : Event → Bool
  | .submit _ => true
  | _ => false

/-- One event. A tick runs the callback of the scheduled timer, that is the
`pollJobStatuses` of the render which scheduled it; without a timer nothing fires. -/
def step (st : State) : Event → State × List Effect
  | .setUrl value => ({ st with url := value }, [])
  | .setMaxPages value => ({ st with maxPages := .text value }, [])
  | .setMaxDepth value => ({ st with maxDepth := .text value }, [])
  | .configSettled resp => (fetchConfigSettled resp st, [])
  | .sourcesSettled initialLoad resp => (fetchSourcesSettled initialLoad resp st, [])
  | .submit resp => handleSubmit st resp
  | .reset confirmed resp => handleReset st confirmed resp
  | .tick fetch =>
    match st.timers with
    | [] => (st, [])
    | t :: _ => pollJobStatuses t.jobs fetch st

/-- A sequence of events, with the effects in order. -/
def run : List Event → State → State × List Effect
  | [], st => (st, [])
  | e :: rest, st =>
    let r := step st e
    let r2 := run rest r.1
    (r2.1, r.2 ++ r2.2)

/-- Whether some job is pending or running. -/
def hasActiveJobs (jobs : Jobs) : Bool :=
  jobs.values.any (fun j => j.status = pending || j.status = running)

/-- Number of source-list refreshes among the effects. -/
def refreshCount (effects : List Effect) : Nat :=
  effects.count Effect.getSources

/-- The timers are exactly what `intervalRef` tracks, the tracked timer calls the
`pollJobStatuses` of the current job map, and there is one precisely when a job is
pending or running. -/
def Inv (st : State) : Prop :=
  st.timers = (match st.intervalRef with
    | some h => [{ handle := h, jobs := st.jobs }]
    | none => []) ∧
  st.intervalRef.isSome = hasActiveJobs st.jobs

/-- Whether the status request of job `k` succeeds with a completed or failed status. -/
def endsWith (fetch : JobId → Option Job) (k : JobId) : Bool :=
  match fetch k with
  | some d => isTerminal d
  | none => false

/-- The page with the invocations of `pollJobStatuses` that are under way.  The function
is `async`: it is suspended at each `await axios.get`, and meanwhile the interval can
fire again and other handlers can run; clearing the interval does not stop an invocation
that has started. -/
structure Page where
  st : State
  /-- One entry per invocation suspended at `await axios.get`: the ids of its
  `activeJobs` that it has still to handle; the request for the first is the one
  outstanding. -/
  inflight : List (List JobId)

/-- What can happen to the page, requests of the poller taken one at a time. -/
inductive Async where
  /-- An event of `Event`, handled as in `step`; for a tick this is an invocation whose
  requests all settle before anything else happens. -/
  | page (e : Event)
  /-- The interval fires: `pollJobStatuses` is called and runs up to its first `await`. -/
  | fires
  /-- The outstanding request of the `i`-th invocation under way settles, with the body
  `resp` of the response, `none` when it fails; the invocation runs up to its next
  `await`, or to its end. -/
  | settles (i : Nat) (resp : Option Job)

/-- Lines 103-104: the interval is cleared and forgotten. -/
def stopPolling (st : State) : State :=
  match st.intervalRef with
  | some h => { clearInterval h st with intervalRef := none }
  | none => st

/-- Lines 98-110: the callback of the scheduled interval starts: with no pending or
running job in the job map of its render it stops the polling, otherwise it sends the
status request of the first such job. -/
def fire (p : Page) : Page × List Effect :=
  match p.st.timers with
  | [] => (p, [])
  | t :: _ =>
    match activeJobs t.jobs with
    | [] => ({ p with st := stopPolling p.st }, [])
    | jobId :: rest =>
      ({ p with inflight := p.inflight ++ [jobId :: rest] },
        [Effect.getIngestionStatus jobId])

/-- Lines 111-120: the status request of `jobId` has settled. -/
def settleOne (jobId : JobId) (resp : Option Job) (st : State) : State × List Effect :=
  match resp with
  | some jobData =>
    (setJobs (fun prev => prev.set jobId jobData) st,
      if jobData.status = completed || jobData.status = failed then [Effect.getSources]
      else [])
  | none => (st, [Effect.consoleError ("Failed to get status for job ".toList ++ jobId)])

/-- Lines 108-121: the `i`-th invocation under way resumes with the outcome of its
request, then sends the request of its next job or ends. -/
def settle (i : Nat) (resp : Option Job) (p : Page) : Page × List Effect :=
  match p.inflight[i]? with
  | some (jobId :: rest) =>
    let r := settleOne jobId resp p.st
    match rest with
    | [] => ({ st := r.1, inflight := p.inflight.eraseIdx i }, r.2)
    | next :: _ =>
      ({ st := r.1, inflight := p.inflight.set i rest },
        r.2 ++ [Effect.getIngestionStatus next])
  | _ => (p, [])

/-- One event of the page. -/
def astep (p : Page) : Async → Page × List Effect
  | .page e => ({ p with st := (step p.st e).1 }, (step p.st e).2)
  | .fires => fire p
  | .settles i resp => settle i resp p

/-- A sequence of events of the page, with the effects in order. -/
def arun : List Async → Page → Page × List Effect
  | [], p => (p, [])
  | e :: rest, p =>
    let r := astep p e
    let r2 := arun rest r.1
    (r2.1, r.2 ++ r2.2)

/-- The mounted page, no invocation of the poller under way. -/
def mountedPage : Page := { st := mounted, inflight := [] }

/-- The page invariant: the timer invariant holds for the state, and no invocation under
way holds a job twice. -/
def PageInv (p : Page) : Prop :=
  Inv p.st ∧ ∀ l ∈ p.inflight, l.Nodup

/-- The ids that the invocations under way have still to handle. -/
def awaited (p : Page) : List JobId := p.inflight.flatten

/-- The events of the poller: the interval fires, a status request settles. -/
def Async.isPoll : Async → Bool
  | .page _ => false
  | _ => true

/-- Whether the event is a submission of the form. -/
def Async.isSubmit : Async → Bool
  | .page e => e.isSubmit
  | _ => false

/-- Number of refreshes due on a status response: one when it reports a completed or
failed status, none otherwise, none for a failed request. -/
def refreshDue : Option Job → Nat
  | some d => if isTerminal d then 1 else 0
  | none => 0

/-- The job whose status request the event settles, if it settles one. -/
def settledJob (p : Page) : Async → Option JobId
  | .settles i _ => (p.inflight[i]?).bind List.head?
  | _ => none

/-- Number of refreshes of the source list requested, along the events, on the settling
of a status request of job `j`. -/
def refreshesOf (j : JobId) : List Async → Page → Nat
  | [], _ => 0
  | e :: rest, p =>
    (if settledJob p e = some j then refreshCount (astep p e).2 else 0) +
      refreshesOf j rest (astep p e).1

/-- Whether, along the events, the interval never fires while an invocation is under
way. -/
def nonOverlapping : List Async → Page → Bool
  | [], _ => true
  | e :: rest, p =>
    (match e with
      | .fires => p.inflight.isEmpty
      | _ => true) && nonOverlapping rest (astep p e).1

end SourcesPage

/-! ## Example data -/

namespace Chat

/-- A chat state with a question typed in and nothing said yet. -/
def asking : State :=
  { q := "What is this site about?".toList, messages := [], loading := false, streamRef := [] }

/-- The reads of a stream that delivers the given chunks and then closes. -/
def readsOf (chunks : List JSString) : List ReadResult :=
  chunks.map (fun c => ReadResult.resolved (some c) false) ++ [ReadResult.resolved none true]

/-- A question is typed, sent with the Enter key, and the first chunk of the answer has
arrived: the stream is still open. -/
def midAnswerEvents : List Event :=
  [Event.input "What is this site about?".toList,
   Event.keyPress "Enter".toList,
   Event.fetchResolved,
   Event.read (some "Partial ".toList) false]

/-- The session after `midAnswerEvents`. -/
def midAnswer : Session := (run midAnswerEvents start).1

end Chat

namespace SourcesPage

/-- A response that starts a job with the given id. -/
def started (jobId : JobId) : CrawlResponse :=
  { job_id := some jobId, message := "Crawl started".toList, status := "started".toList }

/-- A state of the page whose fields are filled in, ready to submit. -/
def filled : State :=
  (run [Event.configSettled (some (.number 10, .number 2)),
        Event.setUrl "https://example.com".toList] mounted).1

/-- The events that lead to `twoJobs`, from the mounted page. -/
def twoJobsEvents : List Event :=
  [Event.configSettled (some (.number 10, .number 2)),
   Event.setUrl "https://example.com".toList,
   Event.submit (some (started "job-a".toList)),
   Event.setUrl "https://example.org".toList,
   Event.submit (some (started "job-b".toList))]

/-- The page after two crawls were submitted, for which the backend started the jobs
`job-a` and then `job-b`. -/
def twoJobs : State := (run twoJobsEvents mounted).1

/-- The events that lead to `finishedJob`, from the mounted page. -/
def finishedJobEvents : List Event :=
  [Event.configSettled (some (.number 10, .number 2)),
   Event.setUrl "https://example.com".toList,
   Event.submit (some (started "j1".toList)),
   Event.tick (fun _ => some
     { status := completed, main_progress := "Done".toList, sub_steps := [] }),
   Event.setUrl "https://example.com/again".toList]

/-- The page after the job `j1` was started and a poll found it completed. -/
def finishedJob : State := (run finishedJobEvents mounted).1

/-- The page after the config response pre-filled the page bound 10 and the depth bound
0, and a url was typed. -/
def zeroDepth : State :=
  (run [Event.configSettled (some (.number 10, .number 0)),
        Event.setUrl "https://example.com".toList] mounted).1

/-- The events that register the job `j1`, from the mounted page. -/
def registersJob : List Async :=
  [Async.page (Event.configSettled (some (.number 10, .number 2))),
   Async.page (Event.setUrl "https://example.com".toList),
   Async.page (Event.submit (some (started "j1".toList)))]

/-- The body of a status response that reports the job as completed. -/
def doneJob : Job :=
  { status := completed, main_progress := "Done".toList, sub_steps := [] }

/-- The body of a status response that reports the job as running. -/
def runningJob : Job :=
  { status := running, main_progress := "Crawling".toList, sub_steps := [] }

/-- The body of a status response that reports the job as running, with two sub-steps. -/
def twoStepsJob : Job :=
  { status := running
    main_progress := "Crawling".toList
    sub_steps :=
      [{ name := "Crawl".toList, status := running, detail := none },
       { name := "Index".toList, status := pending, detail := none }] }

/-- The job `j1` is registered and the interval fires twice before the first status
request has settled: two invocations of the poller are under way, each waiting for the
status of `j1`. -/
def twoInvocations : Page := (arun (registersJob ++ [Async.fires, Async.fires]) mountedPage).1

/-- The jobs `job-a` and `job-b` are registered, the interval fires twice before any
status request has settled, and the first invocation then stores both jobs as
completed while the second still waits for the status of `job-a`. -/
def lateInvocation : Page :=
  (arun (twoJobsEvents.map Async.page ++
    [Async.fires, Async.fires, Async.settles 0 (some doneJob),
     Async.settles 0 (some doneJob)]) mountedPage).1

/-- The job `j1` is registered, the interval fires once and the status request of `j1`
settles as completed before anything else happens. -/
def completesJob : List Async :=
  registersJob ++ [Async.fires, Async.settles 0 (some doneJob)]

/-- The jobs `job-a` and `job-b` are registered, the interval fires once, and the two
status requests of that invocation settle: `job-a` is reported completed and `job-b`
running. -/
def oneDoneOneRunning : List Async :=
  twoJobsEvents.map Async.page ++
    [Async.fires, Async.settles 0 (some doneJob), Async.settles 0 (some runningJob)]

/-- A tick in which the request for `job-a` fails and `job-b` is reported completed. -/
def failsForA : JobId → Option Job :=
  fun k =>
    if k = "job-a".toList then none
    else some { status := completed, main_progress := "Done".toList, sub_steps := [] }

end SourcesPage

/-! ## The streaming decoder: the split at the end of the stream -/

theorem JSString.lastIndexOf_of_not_mem (s : JSString) (c : Char) (h : c ∉ s) :
    JSString.lastIndexOf s c = -1 := by
  induction s with
  | nil => rfl
  | cons x rest ih =>
    have hx : x ≠ c := fun e => h (by simp [e])
    have hr : c ∉ rest := fun e => h (by simp [e])
    simp [JSString.lastIndexOf, ih hr, hx]

theorem JSString.lastIndexOf_last (pre post : JSString) (c : Char) (h : c ∉ post) :
    JSString.lastIndexOf (pre ++ c :: post) c = (pre.length : Int) := by
  induction pre with
  | nil => simp [JSString.lastIndexOf, JSString.lastIndexOf_of_not_mem post c h]
  | cons x rest ih =>
    have hne : ((rest.length : Int)) ≠ -1 := by omega
    have hstep : JSString.lastIndexOf (x :: (rest ++ c :: post)) c =
        (if JSString.lastIndexOf (rest ++ c :: post) c ≠ -1
          then JSString.lastIndexOf (rest ++ c :: post) c + 1
          else if x = c then 0 else -1) := rfl
    rw [List.cons_append, hstep, ih, if_pos hne]
    simp

theorem JSString.substring_from (pre post : JSString) :
    JSString.substring (pre ++ post) (pre.length : Int) none = post := by
  simp only [JSString.substring, JSString.clampIndex, Int.toNat_ofNat, List.length_append]
  rw [Nat.min_eq_left (Nat.le_add_right _ _), Nat.max_eq_right (Nat.le_add_right _ _),
    Nat.min_eq_left (Nat.le_add_right _ _), List.take_of_length_le (by simp), List.drop_left]

theorem JSString.substring_upto (pre post : JSString) :
    JSString.substring (pre ++ post) 0 (some (pre.length : Int)) = pre := by
  simp [JSString.substring, JSString.clampIndex]

namespace Chat

theorem splitFooter_of_parse (pre post : JSString) (v : Json) (h : '{' ∉ post)
    (hp : JSON.parse ('{' :: post) = some v) :
    splitFooter (pre ++ '{' :: post) = (pre, some v) := by
  have hne : ((pre.length : Int)) ≠ -1 := by omega
  simp only [splitFooter, JSString.lastIndexOf_last pre post '{' h]
  rw [if_pos hne, JSString.substring_from, hp, JSString.substring_upto]

theorem splitFooter_of_parse_fail (pre post : JSString) (h : '{' ∉ post)
    (hp : JSON.parse ('{' :: post) = none) :
    splitFooter (pre ++ '{' :: post) = (pre ++ '{' :: post, none) := by
  have hne : ((pre.length : Int)) ≠ -1 := by omega
  simp only [splitFooter, JSString.lastIndexOf_last pre post '{' h]
  rw [if_pos hne, JSString.substring_from, hp]

theorem splitFooter_of_no_brace (s : JSString) (h : '{' ∉ s) :
    splitFooter s = (s, none) := by
  simp [splitFooter, JSString.lastIndexOf_of_not_mem s '{' h]

theorem filter_notTemp_onChunk (text : JSString) (st : State) :
    (onChunk text st).messages.filter notTemp = st.messages.filter notTemp := by
  have h1 : ([({ from_ := .bot_temp, text := st.streamRef ++ text, footer := none } :
      Message)]).filter notTemp = [] := rfl
  simp only [onChunk, List.filter_append, h1, List.append_nil, List.filter_filter,
    Bool.and_self]

/-- The read loop, when the stream closes: it exits with the buffer extended by the
text received, and has touched no message other than the temporary one. -/
theorem readLoop_closed (reads : List ReadResult) (st : State)
    (h : closesNormally reads = true) :
    ∃ st2, readLoop reads st = .closed st2 ∧
      st2.streamRef = st.streamRef ++ received reads ∧
      st2.messages.filter notTemp = st.messages.filter notTemp := by
  induction reads generalizing st with
  | nil => simp [closesNormally] at h
  | cons r rest ih =>
    cases r with
    | rejected e => simp [closesNormally] at h
    | resolved value done =>
      cases done with
      | true =>
        cases value with
        | none => exact ⟨st, by simp [readLoop, received]⟩
        | some text =>
          exact ⟨onChunk text st, by simp [readLoop], by simp [received, onChunk],
            filter_notTemp_onChunk text st⟩
      | false =>
        have h2 : closesNormally rest = true := by simpa [closesNormally] using h
        cases value with
        | none =>
          obtain ⟨st2, h1, h3, h4⟩ := ih st h2
          exact ⟨st2, by simpa [readLoop] using h1, by simpa [received] using h3, h4⟩
        | some text =>
          obtain ⟨st2, h1, h3, h4⟩ := ih (onChunk text st) h2
          refine ⟨st2, by simpa [readLoop] using h1, ?_, ?_⟩
          · rw [h3]; simp [received, onChunk]
          · rw [h4]; exact filter_notTemp_onChunk text st

/-- The message list `send` leaves when the stream closes. -/
theorem send_closed_messages (st : State) (reads : List ReadResult)
    (hq : st.q ≠ []) (hc : closesNormally reads = true) :
    (send st (.stream reads)).finished = true ∧
    (send st (.stream reads)).state.messages =
      (st.messages ++
          [({ from_ := .user, text := st.q, footer := none } : Message)]).filter notTemp ++
        [{ from_ := .bot, text := (splitFooter (received reads)).1,
           footer := (splitFooter (received reads)).2 }] := by
  obtain ⟨st2, h1, h2, h3⟩ := readLoop_closed reads (sendStart st) hc
  have hq2 : st.q.isEmpty = false := by
    cases hs : st.q with
    | nil => exact absurd hs hq
    | cons a b => rfl
  have hb : st2.streamRef = received reads := by simpa [sendStart] using h2
  have hm : st2.messages.filter notTemp =
      (st.messages ++
          [({ from_ := .user, text := st.q, footer := none } : Message)]).filter notTemp := by
    simpa [sendStart] using h3
  simp only [send, hq2, h1]
  simp [finalize, finallyBlock, hb, hm]

/-- **C1.** When the stream closes, `send` ends with exactly the earlier messages (the
temporary one removed), the user message and one final bot message, and that final message
is split as documented: if the received text `B` is `pre ++ "{" ++ post` with no further
brace in `post` and the part from that last brace on parses to `v`, the text is `pre` and
the footer is `v`; if `B` has no brace, or the part from the last brace on does not
parse, the text is `B` and there is no footer.  No error message is appended. -/
theorem send_split_documented (st : State) (reads : List ReadResult)
    (hq : st.q ≠ []) (hc : closesNormally reads = true) :
    ∃ text footer,
      (send st (.stream reads)).finished = true ∧
      (send st (.stream reads)).state.messages =
        (st.messages ++
          [({ from_ := .user, text := st.q, footer := none } : Message)]).filter notTemp ++
          [{ from_ := .bot, text := text, footer := footer }] ∧
      (∀ pre post v, received reads = pre ++ '{' :: post → '{' ∉ post →
        JSON.parse ('{' :: post) = some v → text = pre ∧ footer = some v) ∧
      (('{' ∉ received reads ∨
          ∃ pre post, received reads = pre ++ '{' :: post ∧ '{' ∉ post ∧
            JSON.parse ('{' :: post) = none) →
        text = received reads ∧ footer = none) := by
  obtain ⟨hf, hm⟩ := send_closed_messages st reads hq hc
  refine ⟨_, _, hf, hm, ?_, ?_⟩
  · intro pre post v hB hpost hparse
    rw [hB, splitFooter_of_parse pre post v hpost hparse]
    exact ⟨rfl, rfl⟩
  · rintro (hno | ⟨pre, post, hB, hpost, hparse⟩)
    · rw [splitFooter_of_no_brace _ hno]
      exact ⟨rfl, rfl⟩
    · rw [hB, splitFooter_of_parse_fail pre post hpost hparse]
      exact ⟨rfl, rfl⟩

/-- The three decoding examples, each obtained from `send_split_documented`: the chunks
`"Answer "`, `"text"`, `{"sources":[1,2]}` give the text `Answer text` and the footer
`{"sources":[1,2]}`; the single chunk `Just plain text` and the single chunk
`Use {curly} braces` give the whole text and no footer. -/
theorem send_split_documented_witness :
    (send asking (.stream (readsOf
        ["Answer ".toList, "text".toList, "\x7b\"sources\":[1,2]\x7d".toList]))).state.messages
      = [{ from_ := .user, text := asking.q, footer := none },
         { from_ := .bot, text := "Answer text".toList,
           footer := some (Json.obj
            [("sources".toList, Json.arr [Json.num 1 0, Json.num 2 0])]) }] ∧
    (send asking (.stream (readsOf ["Just plain text".toList]))).state.messages
      = [{ from_ := .user, text := asking.q, footer := none },
         { from_ := .bot, text := "Just plain text".toList, footer := none }] ∧
    (send asking (.stream (readsOf ["Use \x7bcurly\x7d braces".toList]))).state.messages
      = [{ from_ := .user, text := asking.q, footer := none },
         { from_ := .bot, text := "Use \x7bcurly\x7d braces".toList, footer := none }] := by
  refine ⟨?_, ?_, ?_⟩
  · obtain ⟨text, footer, _, hm, h1, _⟩ := send_split_documented asking
      (readsOf ["Answer ".toList, "text".toList, "\x7b\"sources\":[1,2]\x7d".toList])
      (by decide) (by decide)
    obtain ⟨ht, hf⟩ := h1 "Answer text".toList "\"sources\":[1,2]\x7d".toList
      (Json.obj [("sources".toList, Json.arr [Json.num 1 0, Json.num 2 0])])
      (by decide) (by decide) (by rfl)
    rw [hm, ht, hf]
    rfl
  · obtain ⟨text, footer, _, hm, _, h2⟩ := send_split_documented asking
      (readsOf ["Just plain text".toList]) (by decide) (by decide)
    obtain ⟨ht, hf⟩ := h2 (Or.inl (by decide))
    rw [hm, ht, hf]
    rfl
  · obtain ⟨text, footer, _, hm, _, h2⟩ := send_split_documented asking
      (readsOf ["Use \x7bcurly\x7d braces".toList]) (by decide) (by decide)
    obtain ⟨ht, hf⟩ := h2 (Or.inr ⟨"Use ".toList, "curly\x7d braces".toList,
      by decide, by decide, by rfl⟩)
    rw [hm, ht, hf]
    rfl

/-- **C2, evaluated.** A footer that is a JSON object with a nested object, or with a brace
inside a string value, is not recovered although the answer text before it has no
brace and the footer parses on its own: the split starts at the last brace of the
whole text, which lies inside the footer, so the final message shows the raw text and
has no footer. -/
theorem send_nested_footer_not_recovered :
    ('{' ∉ "Done.".toList ∧
      JSON.parse "\x7b\"a\":\x7b\"b\":1\x7d\x7d".toList =
        some (Json.obj [("a".toList, Json.obj [("b".toList, Json.num 1 0)])]) ∧
      (send asking (.stream (readsOf
          ["Done.".toList, "\x7b\"a\":\x7b\"b\":1\x7d\x7d".toList]))).state.messages
        = [{ from_ := .user, text := asking.q, footer := none },
           { from_ := .bot, text := "Done.\x7b\"a\":\x7b\"b\":1\x7d\x7d".toList,
             footer := none }]) ∧
    (JSON.parse "\x7b\"note\":\"\x7b\"\x7d".toList =
        some (Json.obj [("note".toList, Json.str "\x7b".toList)]) ∧
      (send asking (.stream (readsOf
          ["Done.".toList, "\x7b\"note\":\"\x7b\"\x7d".toList]))).state.messages
        = [{ from_ := .user, text := asking.q, footer := none },
           { from_ := .bot, text := "Done.\x7b\"note\":\"\x7b\"\x7d".toList,
             footer := none }]) := by
  refine ⟨⟨by decide, by rfl, by rfl⟩, by rfl, by rfl⟩

/-- What the split does recover: a footer whose only brace is its first character, such
as a flat object without braces in its strings, is split off whatever the text before
it. -/
theorem send_flat_footer_recovered (st : State) (answer post : JSString) (v : Json)
    (hq : st.q ≠ []) (hpost : '{' ∉ post) (hparse : JSON.parse ('{' :: post) = some v) :
    (send st (.stream (readsOf [answer ++ '{' :: post]))).state.messages =
      (st.messages ++
          [({ from_ := .user, text := st.q, footer := none } : Message)]).filter notTemp ++
        [{ from_ := .bot, text := answer, footer := some v }] := by
  have hc : closesNormally (readsOf [answer ++ '{' :: post]) = true := rfl
  have hr : received (readsOf [answer ++ '{' :: post]) = answer ++ '{' :: post := by
    simp [readsOf, received]
  rw [(send_closed_messages st _ hq hc).2, hr, splitFooter_of_parse answer post v hpost hparse]

end Chat

/-! ## The job map -/

namespace SourcesPage

theorem find_of_mem_nodup (es : List (JobId × Job)) (h : (es.map Prod.fst).Nodup)
    (e : JobId × Job) (he : e ∈ es) :
    es.find? (fun x => x.1 = e.1) = some e := by
  induction es with
  | nil => cases he
  | cons x rest ih =>
    rw [List.map_cons, List.nodup_cons] at h
    rcases List.mem_cons.mp he with rfl | hin
    · simp
    · have hne : x.1 ≠ e.1 := by
        intro heq
        exact h.1 (heq ▸ List.mem_map_of_mem Prod.fst hin)
      rw [List.find?_cons_of_neg _ (by simpa using hne)]
      exact ih h.2 hin

theorem Jobs.get_of_mem (o : Jobs) (e : JobId × Job) (he : e ∈ o.entries) :
    o.get e.1 = some e.2 := by
  simp [Jobs.get, find_of_mem_nodup o.entries o.nodup e he]

theorem Jobs.mem_of_get (o : Jobs) (k : JobId) (j : Job) (h : o.get k = some j) :
    (k, j) ∈ o.entries := by
  unfold Jobs.get at h
  cases hf : o.entries.find? (fun e => e.1 = k) with
  | none => simp [hf] at h
  | some e =>
    have hk : e.1 = k := by simpa using List.find?_some hf
    have hj : e.2 = j := by simpa [hf] using h
    have hm := List.mem_of_find?_eq_some hf
    rw [← hk, ← hj]
    exact hm

theorem find_insertIndexKey_self (k : JobId) (v : Job) (es : List (JobId × Job))
    (h : k ∉ es.map Prod.fst) :
    (insertIndexKey k v es).find? (fun x => x.1 = k) = some (k, v) := by
  induction es with
  | nil => simp [insertIndexKey]
  | cons e rest ih =>
    have hne : e.1 ≠ k := fun heq =>
      h (List.mem_map.mpr ⟨e, List.mem_cons_self _ _, heq⟩)
    have hrest : k ∉ rest.map Prod.fst := fun hin => h (List.mem_cons_of_mem _ hin)
    unfold insertIndexKey
    split
    · rw [List.find?_cons_of_neg _ (by simpa using hne)]
      exact ih hrest
    · simp

theorem find_insertIndexKey_other (k k2 : JobId) (v : Job) (es : List (JobId × Job))
    (h : k2 ≠ k) :
    (insertIndexKey k v es).find? (fun x => x.1 = k2) = es.find? (fun x => x.1 = k2) := by
  have hkv : ¬ ((k, v).1 = k2) := fun heq => h heq.symm
  induction es with
  | nil => simp [insertIndexKey, h.symm]
  | cons e rest ih =>
    unfold insertIndexKey
    split
    · by_cases he : e.1 = k2
      · simp [he]
      · rw [List.find?_cons_of_neg _ (by simpa using he),
          List.find?_cons_of_neg _ (by simpa using he)]
        exact ih
    · rw [List.find?_cons_of_neg _ (by simpa using hkv)]

theorem find_replace_self (k : JobId) (v : Job) (es : List (JobId × Job))
    (h : k ∈ es.map Prod.fst) :
    (es.map (fun e => if e.1 = k then (k, v) else e)).find? (fun x => x.1 = k)
      = some (k, v) := by
  induction es with
  | nil => simp at h
  | cons e rest ih =>
    by_cases he : e.1 = k
    · simp [he]
    · have hrest : k ∈ rest.map Prod.fst := by
        rw [List.map_cons, List.mem_cons] at h
        rcases h with h | h
        · exact absurd h.symm he
        · exact h
      rw [List.map_cons, if_neg he, List.find?_cons_of_neg _ (by simpa using he)]
      exact ih hrest

theorem find_replace_other (k k2 : JobId) (v : Job) (es : List (JobId × Job))
    (h : k2 ≠ k) :
    (es.map (fun e => if e.1 = k then (k, v) else e)).find? (fun x => x.1 = k2)
      = es.find? (fun x => x.1 = k2) := by
  induction es with
  | nil => rfl
  | cons e rest ih =>
    by_cases he : e.1 = k
    · have h2 : ¬ (e.1 = k2) := fun heq => h (heq.symm.trans he)
      have h3 : ¬ ((k, v).1 = k2) := fun heq => h heq.symm
      rw [List.map_cons, if_pos he, List.find?_cons_of_neg _ (by simpa using h3),
        List.find?_cons_of_neg _ (by simpa using h2)]
      exact ih
    · rw [List.map_cons, if_neg he]
      by_cases he2 : e.1 = k2
      · simp [he2]
      · rw [List.find?_cons_of_neg _ (by simpa using he2),
          List.find?_cons_of_neg _ (by simpa using he2)]
        exact ih

/-- Reading back the key just written. -/
theorem Jobs.get_set_self (o : Jobs) (k : JobId) (v : Job) : (o.set k v).get k = some v := by
  unfold Jobs.get Jobs.set setEntries
  simp only
  split
  · rename_i hmem
    rw [find_replace_self k v o.entries hmem]; rfl
  · rename_i hmem
    split
    · rw [find_insertIndexKey_self k v o.entries hmem]; rfl
    · have hnone : o.entries.find? (fun x => x.1 = k) = none := by
        rw [List.find?_eq_none]
        intro x hx hxk
        exact hmem (List.mem_map.mpr ⟨x, hx, by simpa using hxk⟩)
      rw [List.find?_append, hnone]
      simp

/-- Writing a key leaves every other key as it was. -/
theorem Jobs.get_set_other (o : Jobs) (k k2 : JobId) (v : Job) (h : k2 ≠ k) :
    (o.set k v).get k2 = o.get k2 := by
  unfold Jobs.get Jobs.set setEntries
  simp only
  split
  · rw [find_replace_other k k2 v o.entries h]
  · split
    · rw [find_insertIndexKey_other k k2 v o.entries h]
    · have hkv : ¬ ((k, v).1 = k2) := fun heq => h heq.symm
      rw [List.find?_append]
      cases o.entries.find? (fun x => x.1 = k2) with
      | some e => rfl
      | none => simp [h.symm]

/-- Writing an existing key does not move it. -/
theorem Jobs.keys_set_of_mem (o : Jobs) (k : JobId) (v : Job) (h : k ∈ o.keys) :
    (o.set k v).keys = o.keys := by
  have h2 : k ∈ o.entries.map Prod.fst := h
  unfold Jobs.keys Jobs.set setEntries
  simp only
  rw [if_pos h2, List.map_map]
  apply List.map_congr_left
  intro e _
  by_cases he : e.1 = k <;> simp [he]

/-- A new key that is not an array index comes last. -/
theorem Jobs.entries_set_fresh (o : Jobs) (k : JobId) (v : Job) (h : k ∉ o.keys)
    (hi : isArrayIndex k = false) :
    (o.set k v).entries = o.entries ++ [(k, v)] := by
  have h2 : k ∉ o.entries.map Prod.fst := h
  unfold Jobs.set setEntries
  simp only
  rw [if_neg h2]
  simp [hi]

end SourcesPage

/-! ## The display list -/

namespace SourcesPage

theorem displayList_fold (o : Jobs) (es : List (JobId × Job))
    (hsub : ∀ e ∈ es, e ∈ o.entries) (init : List DisplayRow) :
    (es.map Prod.fst).foldl
      (fun displayList jobId =>
        match o.get jobId with
        | some job =>
          if job.status = pending || job.status = running then jobRow jobId job :: displayList
          else displayList
        | none => displayList) init
      = ((es.filter (fun e => isActive e.2)).map (fun e => jobRow e.1 e.2)).reverse ++ init := by
  induction es generalizing init with
  | nil => rfl
  | cons e rest ih =>
    have hget : o.get e.1 = some e.2 := o.get_of_mem e (hsub e (List.mem_cons_self _ _))
    have hrest : ∀ x ∈ rest, x ∈ o.entries := fun x hx => hsub x (List.mem_cons_of_mem _ hx)
    rw [List.map_cons, List.foldl_cons, hget]
    simp only
    by_cases hact : isActive e.2 = true
    · have hact2 : (e.2.status = pending || e.2.status = running) = true := hact
      rw [if_pos hact2, ih hrest]
      simp [List.filter_cons, hact]
    · have hact2 : ¬ ((e.2.status = pending || e.2.status = running) = true) := hact
      rw [if_neg hact2, ih hrest]
      simp [List.filter_cons, hact]

/-- The display list is the active rows in reverse key order, then the sources. -/
theorem displayList_eq (sources : List Source) (jobs : Jobs) :
    displayList sources jobs = (activeRows jobs).reverse ++ sources.map sourceRow :=
  displayList_fold jobs jobs.entries (fun _ h => h) _

/-- **C3.** The display list is a block of job rows followed by the persisted sources in
their own order; the block holds exactly one row for each job of the map that is pending or
running, made of that job's `main_progress`, id, status and `sub_steps`, and nothing for
any other job. -/
theorem displayList_rows (sources : List Source) (jobs : Jobs) :
    ∃ rows : List DisplayRow,
      displayList sources jobs = rows ++ sources.map
        (fun s => ({ title := s.title, url := s.url, isJob := false, status := none,
                     sub_steps := none } : DisplayRow)) ∧
      rows.Perm ((jobs.entries.filter
          (fun e => e.2.status = "pending".toList || e.2.status = "running".toList)).map
        (fun e => ({ title := e.2.main_progress, url := e.1, isJob := true,
                     status := some e.2.status, sub_steps := some e.2.sub_steps } :
          DisplayRow))) :=
  ⟨(activeRows jobs).reverse, displayList_eq sources jobs, List.reverse_perm _⟩

/-- **C4, counterexample.** With `job-a` registered before `job-b` and both still
pending, the row of `job-b` comes first: its position in the display list is before that
of the row of `job-a`. -/
theorem displayList_not_registration_order :
    twoJobs.jobs.keys = ["job-a".toList, "job-b".toList] ∧
    displayList twoJobs.sources twoJobs.jobs =
      [jobRow "job-b".toList placeholderJob, jobRow "job-a".toList placeholderJob] ∧
    (displayList twoJobs.sources twoJobs.jobs).indexOf (jobRow "job-b".toList placeholderJob) <
      (displayList twoJobs.sources twoJobs.jobs).indexOf
        (jobRow "job-a".toList placeholderJob) := by
  have h : displayList twoJobs.sources twoJobs.jobs =
      [jobRow "job-b".toList placeholderJob, jobRow "job-a".toList placeholderJob] := by rfl
  refine ⟨by rfl, h, ?_⟩
  rw [h]
  decide

/-- **C4, amended.** The job rows stand in the reverse of the key order of the job map,
and registering a job under a new id that is not an array index puts its row in front of
every row there was: the rows are in reverse order of registration. -/
theorem displayList_reverse_registration (sources : List Source) (jobs : Jobs) (b : JobId)
    (hb : b ∉ jobs.keys) (hi : isArrayIndex b = false) :
    displayList sources jobs = (activeRows jobs).reverse ++ sources.map sourceRow ∧
    displayList sources (jobs.set b placeholderJob)
      = jobRow b placeholderJob :: displayList sources jobs := by
  refine ⟨displayList_eq sources jobs, ?_⟩
  rw [displayList_eq, displayList_eq, activeRows, Jobs.entries_set_fresh jobs b _ hb hi]
  have hact : isActive placeholderJob = true := by decide
  simp [activeRows, List.filter_append, hact]

/-- With one listed source and the jobs `job-a` and `job-b` registered in that order, the
display list is the row of `job-b`, the row of `job-a`, then the source. -/
theorem displayList_reverse_registration_witness :
    displayList [⟨"Example".toList, "https://example.com".toList⟩] twoJobs.jobs
      = [jobRow "job-b".toList placeholderJob, jobRow "job-a".toList placeholderJob,
         sourceRow ⟨"Example".toList, "https://example.com".toList⟩] := by
  have h := (displayList_reverse_registration
    [⟨"Example".toList, "https://example.com".toList⟩]
    (Jobs.empty.set "job-a".toList placeholderJob) "job-b".toList
    (by decide) (by decide)).2
  have hjobs : twoJobs.jobs = (Jobs.empty.set "job-a".toList placeholderJob).set
      "job-b".toList placeholderJob := rfl
  rw [hjobs, h]
  rfl

end SourcesPage

/-! ## Submission -/

namespace SourcesPage

theorem pollingEffect_jobs (st : State) : (pollingEffect st).jobs = st.jobs := by
  unfold pollingEffect
  dsimp only
  split <;> rfl

theorem pollingCleanup_jobs (st : State) : (pollingCleanup st).jobs = st.jobs := by
  unfold pollingCleanup
  split <;> rfl

theorem setJobs_jobs (f : Jobs → Jobs) (st : State) : (setJobs f st).jobs = f st.jobs := by
  rw [setJobs, pollingEffect_jobs, pollingCleanup_jobs]

/-- What an accepted submission that starts a job does to the job map, and what it
shows. -/
theorem handleSubmit_started (st : State) (r : CrawlResponse) (j : JobId)
    (hv : rejects st = false) (hs : r.status ≠ skipped) (hj : r.job_id = some j)
    (hne : j ≠ []) :
    (handleSubmit st (some r)).1.jobs = st.jobs.set j placeholderJob ∧
    (handleSubmit st (some r)).2 =
      [Effect.postCrawl [st.url] st.maxPages st.maxDepth, Effect.toastInfo r.message] := by
  have hne2 : j.isEmpty = false := by
    cases j with
    | nil => exact absurd rfl hne
    | cons a b => rfl
  unfold handleSubmit
  rw [if_neg (by simp [hv])]
  simp only [hj, if_neg hs, hne2, Bool.false_eq_true, if_false]
  exact ⟨setJobs_jobs _ _, trivial⟩

/-- **C5, counterexample.** The map holds `j1` as completed; a crawl response that carries
the id `j1` again is accepted like any other (the notice is the informational one), and
the entry of `j1` is not what it was: it is the pending placeholder. -/
theorem register_existing_not_rejected :
    finishedJob.jobs.get "j1".toList =
      some { status := completed, main_progress := "Done".toList, sub_steps := [] } ∧
    (handleSubmit finishedJob (some (started "j1".toList))).1.jobs.get "j1".toList =
      some placeholderJob ∧
    (handleSubmit finishedJob (some (started "j1".toList))).1.jobs.get "j1".toList ≠
      finishedJob.jobs.get "j1".toList ∧
    (handleSubmit finishedJob (some (started "j1".toList))).2 =
      [Effect.postCrawl ["https://example.com/again".toList] (.number 10) (.number 2),
       Effect.toastInfo "Crawl started".toList] := by
  have h1 : finishedJob.jobs.get "j1".toList =
      some { status := completed, main_progress := "Done".toList, sub_steps := [] } := by rfl
  have h2 : (handleSubmit finishedJob (some (started "j1".toList))).1.jobs.get "j1".toList =
      some placeholderJob := by rfl
  refine ⟨h1, h2, ?_, by rfl⟩
  rw [h1, h2]
  decide

/-- **C5, amended.** An accepted submission whose response is not `skipped` and carries a
non-empty job id `j` always registers: afterwards `j` maps to the pending placeholder,
whether or not `j` was in the map before; every other id maps to what it did; if `j` was
present the keys and their order are the same; the keys stay distinct; and the only
notice is the informational one. -/
theorem handleSubmit_registers (st : State) (r : CrawlResponse) (j : JobId)
    (hv : rejects st = false) (hs : r.status ≠ skipped) (hj : r.job_id = some j)
    (hne : j ≠ []) :
    (handleSubmit st (some r)).1.jobs.get j = some placeholderJob ∧
    (∀ k, k ≠ j → (handleSubmit st (some r)).1.jobs.get k = st.jobs.get k) ∧
    (j ∈ st.jobs.keys → (handleSubmit st (some r)).1.jobs.keys = st.jobs.keys) ∧
    (handleSubmit st (some r)).1.jobs.keys.Nodup ∧
    (handleSubmit st (some r)).2 =
      [Effect.postCrawl [st.url] st.maxPages st.maxDepth, Effect.toastInfo r.message] := by
  obtain ⟨h1, h2⟩ := handleSubmit_started st r j hv hs hj hne
  refine ⟨?_, ?_, ?_, (handleSubmit st (some r)).1.jobs.nodup, h2⟩
  · rw [h1]; exact Jobs.get_set_self _ _ _
  · intro k hk
    rw [h1]; exact Jobs.get_set_other _ _ _ _ hk
  · intro hmem
    rw [h1]; exact Jobs.keys_set_of_mem _ _ _ hmem

/-- Submitting again with the id `j1`, stored as completed, stores the pending
placeholder under `j1`, which stays the only key. -/
theorem handleSubmit_registers_witness :
    (handleSubmit finishedJob (some (started "j1".toList))).1.jobs.get "j1".toList =
      some placeholderJob ∧
    (handleSubmit finishedJob (some (started "j1".toList))).1.jobs.keys = ["j1".toList] :=
  have h := handleSubmit_registers finishedJob (started "j1".toList) "j1".toList
    (by decide) (by decide) rfl (by decide)
  ⟨h.1, (h.2.2.1 (by decide)).trans (by rfl)⟩

/-- **C10.** When the url is empty, or one of the two bounds holds no value, `handleSubmit`
returns at once: the state (job map included) is what it was, and the only effect is the
warning, so no request is sent and no job is registered. -/
theorem handleSubmit_validation_local (st : State) (resp : Option CrawlResponse)
    (h : st.url = [] ∨ st.maxPages.absent ∨ st.maxDepth.absent) :
    (handleSubmit st resp).1 = st ∧
    (handleSubmit st resp).2 = [Effect.toastWarn "Please fill in all fields.".toList] ∧
    (∀ e ∈ (handleSubmit st resp).2, e.isNetworkCall = false) ∧
    (handleSubmit st resp).1.jobs = st.jobs := by
  have hrej : rejects st = true := by
    unfold rejects
    rcases h with h | h | h
    · simp [h, JSString.trim]
    · rcases h with h | h | h <;> simp [h, FieldValue.truthy]
    · rcases h with h | h | h <;> simp [h, FieldValue.truthy]
  have hres : handleSubmit st resp =
      (st, [Effect.toastWarn "Please fill in all fields.".toList]) := by
    unfold handleSubmit
    rw [if_pos hrej]
  rw [hres]
  refine ⟨rfl, rfl, ?_, rfl⟩
  intro e he
  rw [List.mem_singleton] at he
  rw [he]; rfl

/-- The example `submitCrawl("", 10, 2)`: with an empty url and the bounds 10 and 2 the
submission stops at the warning, whatever the backend would have answered. -/
theorem handleSubmit_validation_local_witness :
    ({ filled with url := [] } : State).maxPages = .number 10 ∧
    ({ filled with url := [] } : State).maxDepth = .number 2 ∧
    handleSubmit { filled with url := [] } (some (started "j1".toList)) =
      ({ filled with url := [] }, [Effect.toastWarn "Please fill in all fields.".toList]) :=
  have h := handleSubmit_validation_local { filled with url := [] }
    (some (started "j1".toList)) (Or.inl rfl)
  ⟨by rfl, by rfl, Prod.ext h.1 h.2.1⟩

end SourcesPage

/-! ## Polling -/

namespace SourcesPage

theorem mem_activeJobs (jobs : Jobs) (j : JobId) :
    j ∈ activeJobs jobs ↔ ∃ job, jobs.get j = some job ∧ isActive job = true := by
  unfold activeJobs
  rw [List.mem_filter]
  constructor
  · rintro ⟨_, h⟩
    cases hg : jobs.get j with
    | none => simp [hg] at h
    | some job =>
      rw [hg] at h
      exact ⟨job, rfl, h⟩
  · rintro ⟨job, hg, ha⟩
    refine ⟨?_, ?_⟩
    · exact List.mem_map.mpr ⟨(j, job), jobs.mem_of_get j job hg, rfl⟩
    · rw [hg]; exact ha

theorem activeJobs_nodup (jobs : Jobs) : (activeJobs jobs).Nodup :=
  List.Nodup.filter _ jobs.nodup

theorem hasActiveJobs_iff (jobs : Jobs) :
    hasActiveJobs jobs = true ↔ ∃ j, j ∈ activeJobs jobs := by
  unfold hasActiveJobs Jobs.values
  rw [List.any_eq_true]
  constructor
  · rintro ⟨job, hm, ha⟩
    obtain ⟨e, he, rfl⟩ := List.mem_map.mp hm
    exact ⟨e.1, (mem_activeJobs jobs e.1).mpr ⟨e.2, jobs.get_of_mem e he, ha⟩⟩
  · rintro ⟨j, hj⟩
    obtain ⟨job, hg, ha⟩ := (mem_activeJobs jobs j).mp hj
    exact ⟨job, List.mem_map.mpr ⟨(j, job), jobs.mem_of_get j job hg, rfl⟩, ha⟩

theorem activeJobs_eq_nil (jobs : Jobs) (h : hasActiveJobs jobs = false) :
    activeJobs jobs = [] := by
  cases hl : activeJobs jobs with
  | nil => rfl
  | cons a l =>
    have : hasActiveJobs jobs = true := (hasActiveJobs_iff jobs).mpr ⟨a, by simp [hl]⟩
    rw [h] at this
    cases this

theorem isActive_of_isTerminal (job : Job) (h : isTerminal job = true) :
    isActive job = false := by
  unfold isTerminal at h
  unfold isActive
  simp only [Bool.or_eq_true, decide_eq_true_eq] at h
  rcases h with h | h <;> rw [h] <;> decide

/-- The loop leaves alone every job that is not in its list. -/
theorem pollLoop_get_of_not_mem (fetch : JobId → Option Job) (ids : List JobId) (st : State)
    (j : JobId) (h : j ∉ ids) : (pollLoop fetch ids st).1.jobs.get j = st.jobs.get j := by
  induction ids generalizing st with
  | nil => rfl
  | cons k rest ih =>
    have hk : j ≠ k := fun e => h (by simp [e])
    have hrest : j ∉ rest := fun e => h (List.mem_cons_of_mem _ e)
    unfold pollLoop
    cases hf : fetch k with
    | none => exact ih st hrest
    | some d =>
      simp only
      rw [ih _ hrest, setJobs_jobs]
      exact Jobs.get_set_other _ _ _ _ hk

/-- The loop stores the response of every job in its list whose request succeeds, and
leaves a job whose request fails as it was. -/
theorem pollLoop_get_of_mem (fetch : JobId → Option Job) (ids : List JobId) (st : State)
    (j : JobId) (hn : ids.Nodup) (h : j ∈ ids) :
    (pollLoop fetch ids st).1.jobs.get j =
      (match fetch j with
        | some d => some d
        | none => st.jobs.get j) := by
  induction ids generalizing st with
  | nil => cases h
  | cons k rest ih =>
    rw [List.nodup_cons] at hn
    unfold pollLoop
    rcases List.mem_cons.mp h with rfl | hin
    · cases hf : fetch j with
      | none => exact pollLoop_get_of_not_mem fetch rest st j hn.1
      | some d =>
        simp only
        rw [pollLoop_get_of_not_mem fetch rest _ j hn.1, setJobs_jobs]
        exact Jobs.get_set_self _ _ _
    · have hk : j ≠ k := fun e => hn.1 (e ▸ hin)
      cases hf : fetch k with
      | none => exact ih st hn.2 hin
      | some d =>
        simp only
        rw [ih _ hn.2 hin, setJobs_jobs]
        cases fetch j with
        | none => exact Jobs.get_set_other _ _ _ _ hk
        | some d2 => rfl

/-- The loop requests the status of exactly the jobs in its list. -/
theorem pollLoop_fetched (fetch : JobId → Option Job) (ids : List JobId) (st : State)
    (j : JobId) : Effect.getIngestionStatus j ∈ (pollLoop fetch ids st).2 ↔ j ∈ ids := by
  induction ids generalizing st with
  | nil => simp [pollLoop]
  | cons k rest ih =>
    unfold pollLoop
    cases hf : fetch k with
    | none =>
      simp only [List.mem_cons, ih st]
      constructor
      · rintro (h | h | h)
        · left; exact ((Effect.getIngestionStatus.injEq j k).mp h)
        · cases h
        · right; exact h
      · rintro (h | h)
        · left; rw [h]
        · right; right; exact h
    | some d =>
      simp only [List.mem_cons, List.mem_append, ih]
      constructor
      · rintro (h | h | h)
        · left; exact ((Effect.getIngestionStatus.injEq j k).mp h)
        · split at h
          · rw [List.mem_singleton] at h; cases h
          · cases h
        · right; exact h
      · rintro (h | h)
        · left; rw [h]
        · right; right; exact h

/-- The loop asks for one refresh per job of its list whose request succeeds with a
completed or failed status. -/
theorem pollLoop_refreshCount (fetch : JobId → Option Job) (ids : List JobId) (st : State) :
    refreshCount (pollLoop fetch ids st).2 = (ids.filter (endsWith fetch)).length := by
  induction ids generalizing st with
  | nil => rfl
  | cons k rest ih =>
    unfold pollLoop
    cases hf : fetch k with
    | none =>
      have hk : endsWith fetch k = false := by simp [endsWith, hf]
      have ih2 := ih st
      unfold refreshCount at ih2 ⊢
      simp only [List.filter_cons, hk]
      rw [List.count_cons_of_ne (by simp), List.count_cons_of_ne (by simp)]
      simpa using ih2
    | some d =>
      have ih2 := ih (setJobs (fun prev => prev.set k d) st)
      unfold refreshCount at ih2 ⊢
      simp only
      rw [List.count_cons_of_ne (by simp), List.count_append, ih2]
      by_cases ht : isTerminal d = true
      · have hk : endsWith fetch k = true := by simp [endsWith, hf, ht]
        have ht2 : (d.status = completed || d.status = failed) = true := ht
        simp [List.filter_cons, hk, ht2, Nat.add_comm]
      · have hk : endsWith fetch k = false := by simp [endsWith, hf, ht]
        have ht2 : ¬ ((d.status = completed || d.status = failed) = true) := ht
        simp [List.filter_cons, hk, ht2]

/-- After `setJobs`, provided the only timer there was is the one `intervalRef` tracks, the
invariant holds for the new job map. -/
theorem setJobs_inv (f : Jobs → Jobs) (st : State)
    (htr : ∃ J, st.timers = (match st.intervalRef with
      | some h => [{ handle := h, jobs := J }]
      | none => [])) :
    Inv (setJobs f st) := by
  obtain ⟨J, hJ⟩ := htr
  have hclean : (pollingCleanup { st with jobs := f st.jobs }).timers = [] ∧
      (pollingCleanup { st with jobs := f st.jobs }).intervalRef = none ∧
      (pollingCleanup { st with jobs := f st.jobs }).jobs = f st.jobs := by
    unfold pollingCleanup clearInterval
    cases hi : st.intervalRef with
    | none =>
      rw [hi] at hJ
      simp [hi, hJ]
    | some h =>
      rw [hi] at hJ
      simp [hi, hJ]
  obtain ⟨h1, h2, h3⟩ := hclean
  unfold setJobs
  generalize pollingCleanup { st with jobs := f st.jobs } = c at h1 h2 h3
  unfold Inv pollingEffect
  dsimp only
  by_cases ha : hasActiveJobs c.jobs = true
  · have ha2 : (c.jobs.values.any (fun j => decide (j.status = pending) ||
        decide (j.status = running))) = true := ha
    simp [ha2, h2, h1, hasActiveJobs]
  · have ha2 : (c.jobs.values.any (fun j => decide (j.status = pending) ||
        decide (j.status = running))) = false := by
      simpa [hasActiveJobs] using ha
    simp [ha2, h2, h1, hasActiveJobs]

theorem Inv.tracked {st : State} (h : Inv st) :
    ∃ J, st.timers = (match st.intervalRef with
      | some h => [{ handle := h, jobs := J }]
      | none => []) :=
  ⟨st.jobs, h.1⟩

theorem mounted_inv : Inv mounted := by
  constructor <;> rfl

theorem pollLoop_inv (fetch : JobId → Option Job) (ids : List JobId) (st : State)
    (h : Inv st) : Inv (pollLoop fetch ids st).1 := by
  induction ids generalizing st with
  | nil => exact h
  | cons k rest ih =>
    unfold pollLoop
    cases hf : fetch k with
    | none => exact ih st h
    | some d => exact ih _ (setJobs_inv _ st h.tracked)

/-- In a state that satisfies the invariant, a tick is the loop over the jobs that are
pending or running in the current job map. -/
theorem tick_eq (st : State) (h : Inv st) (fetch : JobId → Option Job) :
    step st (.tick fetch) = pollLoop fetch (activeJobs st.jobs) st := by
  obtain ⟨ht, ha⟩ := h
  cases hi : st.intervalRef with
  | none =>
    rw [hi] at ht ha
    have hnil : activeJobs st.jobs = [] := activeJobs_eq_nil st.jobs (by simpa using ha.symm)
    simp only [step, ht, hnil, pollLoop]
  | some hd =>
    rw [hi] at ht ha
    have hact : hasActiveJobs st.jobs = true := by simpa using ha.symm
    obtain ⟨j, hj⟩ := (hasActiveJobs_iff st.jobs).mp hact
    have hlen : ¬ ((activeJobs st.jobs).length = 0) := by
      intro h0
      rw [List.length_eq_zero] at h0
      rw [h0] at hj
      cases hj
    simp only [step, ht, pollJobStatuses]
    rw [if_neg hlen]

theorem handleSubmit_inv (st : State) (resp : Option CrawlResponse) (h : Inv st) :
    Inv (handleSubmit st resp).1 := by
  unfold handleSubmit
  split
  · exact h
  · cases resp with
    | none => exact h
    | some r =>
      simp only
      split
      · exact h
      · cases hj : r.job_id with
        | none => exact h
        | some job_id =>
          simp only
          split
          · exact h
          · have hi := setJobs_inv (fun prev => prev.set job_id placeholderJob)
              { st with isLoading := true, error := none } h.tracked
            exact hi

theorem step_inv (st : State) (e : Event) (h : Inv st) : Inv (step st e).1 := by
  cases e with
  | setUrl value => exact h
  | setMaxPages value => exact h
  | setMaxDepth value => exact h
  | configSettled resp =>
    cases resp with
    | none => exact h
    | some p => exact h
  | sourcesSettled initialLoad resp =>
    cases resp with
    | none => cases initialLoad <;> exact h
    | some data => exact h
  | submit resp => exact handleSubmit_inv st resp h
  | reset confirmed resp =>
    cases confirmed with
    | false => exact h
    | true =>
      cases resp with
      | none => exact h
      | some message => exact setJobs_inv _ st h.tracked
  | tick fetch =>
    rw [tick_eq st h]
    exact pollLoop_inv fetch _ st h

theorem run_inv (evs : List Event) (st : State) (h : Inv st) : Inv (run evs st).1 := by
  induction evs generalizing st with
  | nil => exact h
  | cons e rest ih => exact ih _ (step_inv st e h)

theorem tick_keeps_inactive (st : State) (h : Inv st) (fetch : JobId → Option Job)
    (j : JobId) (hj : j ∉ activeJobs st.jobs) :
    Effect.getIngestionStatus j ∉ (step st (.tick fetch)).2 ∧
    (step st (.tick fetch)).1.jobs.get j = st.jobs.get j ∧
    j ∉ activeJobs (step st (.tick fetch)).1.jobs := by
  rw [tick_eq st h]
  have hget := pollLoop_get_of_not_mem fetch (activeJobs st.jobs) st j hj
  refine ⟨fun hm => hj ((pollLoop_fetched fetch _ st j).mp hm), hget, ?_⟩
  intro hm
  rw [mem_activeJobs, hget] at hm
  exact hj ((mem_activeJobs st.jobs j).mpr hm)

theorem not_active_of_terminal (jobs : Jobs) (j : JobId) (job : Job)
    (hget : jobs.get j = some job) (hterm : isTerminal job = true) : j ∉ activeJobs jobs := by
  intro hm
  obtain ⟨job2, hg, ha⟩ := (mem_activeJobs jobs j).mp hm
  rw [hget] at hg
  cases hg
  rw [isActive_of_isTerminal job hterm] at ha
  cases ha

/-- The function `pollJobStatuses` of a render neither asks about nor writes a job that is
completed or failed in the job map of that render. -/
theorem pollJobStatuses_skips_terminal (jobs : Jobs) (fetch : JobId → Option Job)
    (st : State) (j : JobId) (job : Job) (hget : jobs.get j = some job)
    (hterm : isTerminal job = true) :
    Effect.getIngestionStatus j ∉ (pollJobStatuses jobs fetch st).2 ∧
    (pollJobStatuses jobs fetch st).1.jobs.get j = st.jobs.get j := by
  have hna := not_active_of_terminal jobs j job hget hterm
  unfold pollJobStatuses
  dsimp only
  split
  · refine ⟨List.not_mem_nil _, ?_⟩
    cases st.intervalRef <;> rfl
  · exact ⟨fun hm => hna ((pollLoop_fetched fetch _ st j).mp hm),
      pollLoop_get_of_not_mem fetch _ st j hna⟩

/-- **C7.** In any state the page can reach, when the status request of a pending or
running job fails during a tick, that job is stored after the tick exactly as before and
is still pending or running; the refreshes requested in the tick are those of the other
jobs whose request succeeded with a completed or failed status; and every job that was
pending or running is asked about, each one whose request succeeds being stored with its
own response. -/
theorem failed_fetch_changes_nothing (evs : List Event) (fetch : JobId → Option Job)
    (j : JobId) (hact : j ∈ activeJobs (run evs mounted).1.jobs) (hfail : fetch j = none) :
    (step (run evs mounted).1 (.tick fetch)).1.jobs.get j = (run evs mounted).1.jobs.get j ∧
    j ∈ activeJobs (step (run evs mounted).1 (.tick fetch)).1.jobs ∧
    refreshCount (step (run evs mounted).1 (.tick fetch)).2 =
      ((activeJobs (run evs mounted).1.jobs).filter
        (fun k => decide (k ≠ j) && endsWith fetch k)).length ∧
    (∀ k ∈ activeJobs (run evs mounted).1.jobs,
      Effect.getIngestionStatus k ∈ (step (run evs mounted).1 (.tick fetch)).2 ∧
      ∀ d, fetch k = some d →
        (step (run evs mounted).1 (.tick fetch)).1.jobs.get k = some d) := by
  have hinv := run_inv evs mounted mounted_inv
  generalize (run evs mounted).1 = st at hinv hact
  rw [tick_eq st hinv]
  have hnd := activeJobs_nodup st.jobs
  have hget : (pollLoop fetch (activeJobs st.jobs) st).1.jobs.get j = st.jobs.get j := by
    rw [pollLoop_get_of_mem fetch _ st j hnd hact, hfail]
  refine ⟨hget, ?_, ?_, ?_⟩
  · rw [mem_activeJobs, hget]
    exact (mem_activeJobs st.jobs j).mp hact
  · rw [pollLoop_refreshCount]
    congr 1
    apply List.filter_congr
    intro k _
    by_cases hk : k = j
    · simp [hk, endsWith, hfail]
    · simp [hk]
  · intro k hk
    refine ⟨(pollLoop_fetched fetch _ st k).mpr hk, ?_⟩
    intro d hd
    rw [pollLoop_get_of_mem fetch _ st k hnd hk, hd]

/-- With `job-a` and `job-b` pending, a tick in which the request for `job-a` fails and
`job-b` is reported completed leaves `job-a` as the pending placeholder, asks for one
refresh (that of `job-b`) and stores the completed state of `job-b`. -/
theorem failed_fetch_changes_nothing_witness :
    (step (run twoJobsEvents mounted).1 (.tick failsForA)).1.jobs.get "job-a".toList =
      some placeholderJob ∧
    refreshCount (step (run twoJobsEvents mounted).1 (.tick failsForA)).2 = 1 ∧
    (step (run twoJobsEvents mounted).1 (.tick failsForA)).1.jobs.get "job-b".toList =
      some { status := completed, main_progress := "Done".toList, sub_steps := [] } := by
  have hact : activeJobs (run twoJobsEvents mounted).1.jobs =
      ["job-a".toList, "job-b".toList] := by rfl
  have h := failed_fetch_changes_nothing twoJobsEvents failsForA "job-a".toList
    (by rw [hact]; decide) (by decide)
  refine ⟨h.1.trans (by rfl), h.2.2.1.trans ?_, ?_⟩
  · rw [hact]; decide
  · exact (h.2.2.2 "job-b".toList (by rw [hact]; decide)).2 _ (by decide)

end SourcesPage

/-! ## The polling timer -/

namespace SourcesPage

theorem timers_of_inv (st : State) (h : Inv st) :
    (st.timers ≠ [] ↔ hasActiveJobs st.jobs = true) ∧ st.timers.length ≤ 1 := by
  obtain ⟨ht, ha⟩ := h
  cases hi : st.intervalRef with
  | none =>
    rw [hi] at ht ha
    have : hasActiveJobs st.jobs = false := by simpa using ha.symm
    simp [ht, this]
  | some hd =>
    rw [hi] at ht ha
    have : hasActiveJobs st.jobs = true := by simpa using ha.symm
    simp [ht, this]

theorem step_quiet (st : State) (h : Inv st) (hno : hasActiveJobs st.jobs = false)
    (e : Event) (he : e.isSubmit = false) :
    (∀ j, Effect.getIngestionStatus j ∉ (step st e).2) ∧
    hasActiveJobs (step st e).1.jobs = false := by
  cases e with
  | setUrl value => exact ⟨fun _ => List.not_mem_nil _, hno⟩
  | setMaxPages value => exact ⟨fun _ => List.not_mem_nil _, hno⟩
  | setMaxDepth value => exact ⟨fun _ => List.not_mem_nil _, hno⟩
  | configSettled resp =>
    cases resp with
    | none => exact ⟨fun _ => List.not_mem_nil _, hno⟩
    | some p => exact ⟨fun _ => List.not_mem_nil _, hno⟩
  | sourcesSettled initialLoad resp =>
    cases resp with
    | none => cases initialLoad <;> exact ⟨fun _ => List.not_mem_nil _, hno⟩
    | some data => exact ⟨fun _ => List.not_mem_nil _, hno⟩
  | submit resp => cases he
  | reset confirmed resp =>
    cases confirmed with
    | false => exact ⟨fun j hm => (by simp [step, handleReset] at hm), hno⟩
    | true =>
      cases resp with
      | none => exact ⟨fun j hm => (by simp [step, handleReset] at hm), hno⟩
      | some message =>
        refine ⟨fun j hm => (by simp [step, handleReset] at hm), ?_⟩
        simp only [step, handleReset, if_true]
        rw [setJobs_jobs]
        rfl
  | tick fetch =>
    rw [tick_eq st h, activeJobs_eq_nil st.jobs hno]
    exact ⟨fun _ => List.not_mem_nil _, hno⟩

end SourcesPage

/-! ## The chat session: the temporary message -/

namespace Chat

theorem tempCount_append (xs ys : List Message) :
    tempCount (xs ++ ys) = tempCount xs + tempCount ys := by
  simp [tempCount, List.countP_append]

theorem tempCount_filter_notTemp (xs : List Message) : tempCount (xs.filter notTemp) = 0 := by
  unfold tempCount
  rw [List.countP_eq_zero]
  intro m hm
  have h := (List.mem_filter.mp hm).2
  simpa [notTemp] using h

theorem onChunk_messages (text : JSString) (st : State) :
    (onChunk text st).messages =
      st.messages.filter notTemp ++
        [{ from_ := .bot_temp, text := st.streamRef ++ text, footer := none }] := rfl

theorem tempCount_onChunk (text : JSString) (st : State) :
    tempCount (onChunk text st).messages = 1 := by
  rw [onChunk_messages, tempCount_append, tempCount_filter_notTemp]
  rfl

theorem tempCount_finalize (st : State) : tempCount (finalize st).messages = 0 := by
  unfold finalize
  dsimp only
  rw [tempCount_append, tempCount_filter_notTemp]
  rfl

theorem tempCount_onError (e : JSString) (st : State) :
    tempCount (onError e st).messages = tempCount st.messages := by
  unfold onError
  dsimp only
  rw [tempCount_append]
  rfl

theorem tempCount_sendStart (st : State) :
    tempCount (sendStart st).messages = tempCount st.messages := by
  unfold sendStart
  dsimp only
  rw [tempCount_append]
  rfl

theorem invoke_tempCount (s : Session) :
    tempCount (invoke s).1.state.messages = tempCount s.state.messages := by
  unfold invoke
  split
  · rfl
  · exact tempCount_sendStart s.state

/-- No event brings a second temporary message. -/
theorem step_tempCount (s : Session) (e : Event) (h : tempCount s.state.messages ≤ 1) :
    tempCount (step s e).1.state.messages ≤ 1 := by
  cases e with
  | input value => exact h
  | click =>
    simp only [step, onClick]
    split
    · exact h
    · rw [invoke_tempCount]; exact h
  | keyPress key =>
    simp only [step, onKeyPress]
    split
    · rw [invoke_tempCount]; exact h
    · exact h
  | fetchRejected e =>
    simp only [step]
    split
    · exact h
    · show tempCount (onError e s.state).messages ≤ 1
      rw [tempCount_onError]; exact h
  | fetchResolved =>
    simp only [step]
    split <;> exact h
  | read value done =>
    simp only [step]
    split
    · exact h
    · cases value with
      | none =>
        cases done with
        | false => exact h
        | true =>
          show tempCount (finalize s.state).messages ≤ 1
          rw [tempCount_finalize]; exact Nat.zero_le _
      | some text =>
        cases done with
        | false =>
          show tempCount (onChunk text s.state).messages ≤ 1
          rw [tempCount_onChunk]
        | true =>
          show tempCount (finalize (onChunk text s.state)).messages ≤ 1
          rw [tempCount_finalize]; exact Nat.zero_le _
  | readRejected e =>
    simp only [step]
    split
    · exact h
    · show tempCount (onError e s.state).messages ≤ 1
      rw [tempCount_onError]; exact h

theorem run_tempCount (evs : List Event) (s : Session) (h : tempCount s.state.messages ≤ 1) :
    tempCount (run evs s).1.state.messages ≤ 1 := by
  induction evs generalizing s with
  | nil => exact h
  | cons e rest ih => exact ih _ (step_tempCount s e h)

end Chat

/-! ## The chat session: one call of `send` -/

namespace Chat

theorem run_reads_idle (reads : List ReadResult) (s : Session) (h : s.reading = 0) :
    run (reads.map ReadResult.toEvent) s = (s, []) := by
  induction reads with
  | nil => rfl
  | cons r rest ih =>
    have hstep : step s r.toEvent = (s, []) := by
      cases r <;> simp [ReadResult.toEvent, step, h]
    simp only [List.map_cons, run, hstep, ih]
    rfl

/-- The reads of a single call of `send`, taken as events, leave the state that the loop
of `send` followed by its `catch` and `finally` leaves. -/
theorem run_reads_eq (reads : List ReadResult) (st : State) (p : Nat) :
    (run (reads.map ReadResult.toEvent) { state := st, pending := p, reading := 1 }).1.state =
      (match readLoop reads st with
        | .closed st2 => finallyBlock (finalize st2)
        | .threw e st2 => finallyBlock (onError e st2)
        | .awaiting st2 => st2) := by
  induction reads generalizing st with
  | nil => rfl
  | cons r rest ih =>
    cases r with
    | rejected e =>
      have hidle := run_reads_idle rest
        { state := finallyBlock (onError e st), pending := p, reading := 0 } rfl
      simp only [List.map_cons, ReadResult.toEvent, run, step, readLoop]
      simp only [Nat.one_ne_zero, if_false, Nat.sub_self]
      rw [hidle]
    | resolved value done =>
      cases done with
      | true =>
        have hidle := run_reads_idle rest
          { state := finallyBlock (finalize (match value with
              | some text => onChunk text st
              | none => st))
            pending := p
            reading := 0 } rfl
        simp only [List.map_cons, ReadResult.toEvent, run, step, readLoop]
        simp only [Nat.one_ne_zero, if_false, if_true, Nat.sub_self]
        rw [hidle]
      | false =>
        have hih := ih (match value with
            | some text => onChunk text st
            | none => st)
        simp only [List.map_cons, ReadResult.toEvent, run, step, readLoop]
        simp only [Nat.one_ne_zero, if_false, Bool.false_eq_true]
        exact hih

/-- A call of `send` made with the Enter key while no other call is under way, followed by
its response and its reads, is the function `send` run against that stream. -/
theorem run_single_send (reads : List ReadResult) (s : Session) (hq : s.state.q ≠ [])
    (hp : s.pending = 0) (hr : s.reading = 0) :
    (run (Event.keyPress "Enter".toList :: Event.fetchResolved ::
        reads.map ReadResult.toEvent) s).1.state = (send s.state (.stream reads)).state := by
  have hq2 : s.state.q.isEmpty = false := by
    cases hs : s.state.q with
    | nil => exact absurd hs hq
    | cons a b => rfl
  have h1 : step s (Event.keyPress "Enter".toList) =
      ({ s with state := sendStart s.state, pending := s.pending + 1 },
        [Effect.postChatStream s.state.q]) := by
    simp [step, onKeyPress, invoke, hq2]
  have h2 : step { s with state := sendStart s.state, pending := s.pending + 1 }
      Event.fetchResolved =
      ({ state := sendStart s.state, pending := 0, reading := 1 }, []) := by
    simp [step, hp, hr]
  simp only [run, h1, h2]
  rw [run_reads_eq reads (sendStart s.state) 0]
  simp only [send, hq2]
  cases readLoop reads (sendStart s.state) <;> rfl

end Chat

/-! ## The chat session: a second query while one is loading -/

namespace Chat

/-- A click while `loading` does nothing: the button is disabled. -/
theorem click_ignored_while_loading (s : Session) (h : s.state.loading = true) :
    step s .click = (s, []) := by
  simp [step, onClick, h]

/-- The Enter key calls `send` whatever `loading` is: with a question in the input, a
request is issued, the user message is appended and the buffer is emptied. -/
theorem enter_sends_whatever_loading (s : Session) (hq : s.state.q ≠ []) :
    (step s (.keyPress "Enter".toList)).2 = [Effect.postChatStream s.state.q] ∧
    (step s (.keyPress "Enter".toList)).1.state.messages =
      s.state.messages ++ [{ from_ := .user, text := s.state.q, footer := none }] ∧
    (step s (.keyPress "Enter".toList)).1.state.streamRef = [] := by
  have hq2 : s.state.q.isEmpty = false := by
    cases hs : s.state.q with
    | nil => exact absurd hs hq
    | cons a b => rfl
  simp [step, onKeyPress, invoke, hq2, sendStart]

/-- **C12, evaluated.** While the answer to a first query is still streaming (`loading` is
set, one chunk `Partial ` has arrived), a click on the button does nothing, but the Enter
key calls `send` again: a second request is issued, a second user message is appended
and the buffer is emptied.  The next chunk `answer` of the first stream then lands in the
emptied buffer, and when that stream closes the final message reads `answer` instead of
`Partial answer`.  The function `send` itself, run on that state, issues the request. -/
theorem enter_sends_while_loading :
    (midAnswer.state.loading = true ∧ midAnswer.reading = 1 ∧
      midAnswer.state.streamRef = "Partial ".toList) ∧
    (step midAnswer .click).2 = [] ∧
    (step midAnswer .click).1.state.messages = midAnswer.state.messages ∧
    (step midAnswer (.keyPress "Enter".toList)).2 =
      [Effect.postChatStream "What is this site about?".toList] ∧
    (step midAnswer (.keyPress "Enter".toList)).1.state.messages =
      midAnswer.state.messages ++
        [{ from_ := .user, text := "What is this site about?".toList, footer := none }] ∧
    (step midAnswer (.keyPress "Enter".toList)).1.state.streamRef = [] ∧
    (run [Event.keyPress "Enter".toList, Event.read (some "answer".toList) false,
          Event.read none true] midAnswer).1.state.messages =
      [{ from_ := .user, text := "What is this site about?".toList, footer := none },
       { from_ := .user, text := "What is this site about?".toList, footer := none },
       { from_ := .bot, text := "answer".toList, footer := none }] ∧
    (send midAnswer.state (.stream [])).effects =
      [Effect.postChatStream "What is this site about?".toList] := by
  refine ⟨⟨by rfl, by rfl, by rfl⟩, by rfl, by rfl, by rfl, by rfl, by rfl, by rfl, by rfl⟩

end Chat

/-! ## The chat session: the end of a stream -/

namespace Chat

theorem readLoop_threw_tempCount (reads : List ReadResult) (st : State) (e : JSString)
    (st2 : State) (h1 : tempCount st.messages = 1) (h : readLoop reads st = .threw e st2) :
    tempCount st2.messages = 1 := by
  induction reads generalizing st with
  | nil => simp [readLoop] at h
  | cons r rest ih =>
    cases r with
    | rejected e2 =>
      simp only [readLoop, LoopOutcome.threw.injEq] at h
      rw [← h.2]; exact h1
    | resolved value done =>
      cases done with
      | true => simp [readLoop] at h
      | false =>
        cases value with
        | none => exact ih st h1 (by simpa [readLoop] using h)
        | some text =>
          exact ih (onChunk text st) (tempCount_onChunk text st) (by simpa [readLoop] using h)

/-- When a read rejects after a chunk was received, `send` finishes with the temporary
message still among the messages, followed by the error message. -/
theorem send_read_failure_keeps_temp (st : State) (text : JSString)
    (reads : List ReadResult) (e : JSString) (st2 : State) (hq : st.q ≠ [])
    (h : readLoop (.resolved (some text) false :: reads) (sendStart st) = .threw e st2) :
    (send st (.stream (.resolved (some text) false :: reads))).finished = true ∧
    (send st (.stream (.resolved (some text) false :: reads))).state.messages =
      st2.messages ++ [{ from_ := .bot, text := "Error: ".toList ++ e, footer := none }] ∧
    tempCount (send st (.stream (.resolved (some text) false :: reads))).state.messages
      = 1 := by
  have hq2 : st.q.isEmpty = false := by
    cases hs : st.q with
    | nil => exact absurd hs hq
    | cons a b => rfl
  have ht : tempCount st2.messages = 1 :=
    readLoop_threw_tempCount reads (onChunk text (sendStart st)) e st2
      (tempCount_onChunk _ _) (by simpa [readLoop] using h)
  have hm : (send st (.stream (.resolved (some text) false :: reads))).state.messages =
      st2.messages ++ [{ from_ := .bot, text := "Error: ".toList ++ e, footer := none }] := by
    simp only [send, hq2, h]
    rfl
  refine ⟨by simp only [send, hq2, h]; rfl, hm, ?_⟩
  rw [hm, tempCount_append, ht]
  rfl

/-- When the stream closes, `send` finishes with no temporary message, the last message
being the final bot message. -/
theorem send_closed_retires_temp (st : State) (reads : List ReadResult)
    (hq : st.q ≠ []) (hc : closesNormally reads = true) :
    tempCount (send st (.stream reads)).state.messages = 0 ∧
    ((send st (.stream reads)).state.messages.getLast?.map (fun m => m.from_)) =
      some Sender.bot := by
  obtain ⟨_, hm⟩ := send_closed_messages st reads hq hc
  rw [hm]
  refine ⟨?_, ?_⟩
  · rw [tempCount_append, tempCount_filter_notTemp]
    rfl
  · rw [List.getLast?_append]
    rfl

/-- **C13, evaluated.** The stream delivers the chunk `Partial ` and the next read fails:
`send` finishes, its last message is the bot message with the error, but the temporary
message `Partial ` is still in the sequence.  Had the stream closed instead, the
temporary message would have been replaced by the final bot message. -/
theorem read_failure_leaves_temp :
    (send asking (.stream [.resolved (some "Partial ".toList) false,
        .rejected "TypeError: network error".toList])).finished = true ∧
    (send asking (.stream [.resolved (some "Partial ".toList) false,
        .rejected "TypeError: network error".toList])).state.messages =
      [{ from_ := .user, text := asking.q, footer := none },
       { from_ := .bot_temp, text := "Partial ".toList, footer := none },
       { from_ := .bot, text := "Error: TypeError: network error".toList, footer := none }] ∧
    tempCount (send asking (.stream [.resolved (some "Partial ".toList) false,
        .rejected "TypeError: network error".toList])).state.messages = 1 ∧
    (send asking (.stream [.resolved (some "Partial ".toList) false,
        .resolved none true])).state.messages =
      [{ from_ := .user, text := asking.q, footer := none },
       { from_ := .bot, text := "Partial ".toList, footer := none }] := by
  refine ⟨by rfl, by rfl, by rfl, by rfl⟩

end Chat

/-! ## Submission: what the validation rejects -/

namespace SourcesPage

theorem trim_of_all_blank (s : JSString) (h : ∀ c ∈ s, JSString.isTrimChar c = true) :
    JSString.trim s = [] := by
  have h1 : s.dropWhile JSString.isTrimChar = [] := List.dropWhile_eq_nil_iff.mpr h
  simp [JSString.trim, h1]

theorem truthy_eq_false_iff (v : FieldValue) :
    v.truthy = false ↔ v = .undefined ∨ v = .null ∨ v = .text [] ∨ v = .number 0 := by
  cases v with
  | undefined => simp [FieldValue.truthy]
  | null => simp [FieldValue.truthy]
  | text s => cases s <;> simp [FieldValue.truthy]
  | number n => simp [FieldValue.truthy]

theorem rejects_iff (st : State) :
    rejects st = true ↔
      (JSString.trim st.url = [] ∨ st.maxPages.truthy = false ∨ st.maxDepth.truthy = false) := by
  unfold rejects
  cases JSString.trim st.url <;> cases st.maxPages.truthy <;> cases st.maxDepth.truthy <;> simp

theorem handleSubmit_of_rejects (st : State) (resp : Option CrawlResponse)
    (h : rejects st = true) :
    handleSubmit st resp = (st, [Effect.toastWarn "Please fill in all fields.".toList]) := by
  unfold handleSubmit
  rw [if_pos h]

/-- An accepted submission always sends the crawl request first. -/
theorem handleSubmit_of_accepts (st : State) (resp : Option CrawlResponse)
    (h : rejects st = false) :
    ∃ rest, (handleSubmit st resp).2 =
      Effect.postCrawl [st.url] st.maxPages st.maxDepth :: rest := by
  unfold handleSubmit
  rw [if_neg (by simp [h])]
  cases resp with
  | none => exact ⟨_, rfl⟩
  | some r =>
    simp only
    split
    · exact ⟨_, rfl⟩
    · exact ⟨_, rfl⟩

/-- **C14.** The submission stops at the warning, with the state as it was and no request,
exactly when the trimmed url is empty or one of the two bounds is falsy, that is
`undefined`, `null`, the empty text or the number 0; otherwise the crawl request is sent.
Hence a url made of blanks only is rejected; a depth that is the number 0 is rejected;
and with a url that is not blank and a truthy page bound, the depth typed as the text
`0` is accepted and the request is sent. -/
theorem validation_rejects_exactly (st : State) (resp : Option CrawlResponse) :
    (handleSubmit st resp = (st, [Effect.toastWarn "Please fill in all fields.".toList]) ↔
      (JSString.trim st.url = [] ∨
        (st.maxPages = .undefined ∨ st.maxPages = .null ∨ st.maxPages = .text [] ∨
          st.maxPages = .number 0) ∨
        (st.maxDepth = .undefined ∨ st.maxDepth = .null ∨ st.maxDepth = .text [] ∨
          st.maxDepth = .number 0))) ∧
    (handleSubmit st resp ≠ (st, [Effect.toastWarn "Please fill in all fields.".toList]) →
      ∃ rest, (handleSubmit st resp).2 =
        Effect.postCrawl [st.url] st.maxPages st.maxDepth :: rest) ∧
    ((∀ c ∈ st.url, JSString.isTrimChar c = true) →
      handleSubmit st resp = (st, [Effect.toastWarn "Please fill in all fields.".toList])) ∧
    (st.maxDepth = .number 0 →
      handleSubmit st resp = (st, [Effect.toastWarn "Please fill in all fields.".toList]) ∧
      ∀ e ∈ (handleSubmit st resp).2, e.isNetworkCall = false) ∧
    (JSString.trim st.url ≠ [] → st.maxPages.truthy = true → st.maxDepth = .text "0".toList →
      ∃ rest, (handleSubmit st resp).2 =
        Effect.postCrawl [st.url] st.maxPages (.text "0".toList) :: rest) := by
  have hwarn : ∀ (h : rejects st = true),
      handleSubmit st resp = (st, [Effect.toastWarn "Please fill in all fields.".toList]) :=
    handleSubmit_of_rejects st resp
  have hpass : rejects st = false →
      handleSubmit st resp ≠ (st, [Effect.toastWarn "Please fill in all fields.".toList]) := by
    intro h heq
    obtain ⟨rest, hr⟩ := handleSubmit_of_accepts st resp h
    rw [heq] at hr
    simp at hr
  have hiff : handleSubmit st resp =
      (st, [Effect.toastWarn "Please fill in all fields.".toList]) ↔ rejects st = true := by
    constructor
    · intro heq
      by_contra hn
      exact hpass (by simpa using hn) heq
    · exact hwarn
  refine ⟨?_, ?_, ?_, ?_, ?_⟩
  · rw [hiff, rejects_iff, truthy_eq_false_iff, truthy_eq_false_iff]
  · intro hne
    have hr : rejects st = false := by
      cases h : rejects st with
      | false => rfl
      | true => exact absurd (hwarn h) hne
    exact handleSubmit_of_accepts st resp hr
  · intro hall
    exact hwarn ((rejects_iff st).mpr (Or.inl (trim_of_all_blank st.url hall)))
  · intro hd
    have hrej := hwarn ((rejects_iff st).mpr
      (Or.inr (Or.inr ((truthy_eq_false_iff _).mpr (Or.inr (Or.inr (Or.inr hd)))))))
    refine ⟨hrej, ?_⟩
    rw [hrej]
    intro e he
    rw [List.mem_singleton] at he
    rw [he]; rfl
  · intro hu hp hd
    have hr : rejects st = false := by
      cases h : rejects st with
      | false => rfl
      | true =>
        rcases (rejects_iff st).mp h with h1 | h1 | h1
        · exact absurd h1 hu
        · rw [hp] at h1; cases h1
        · rw [hd] at h1; simp [FieldValue.truthy] at h1
    obtain ⟨rest, hrest⟩ := handleSubmit_of_accepts st resp hr
    exact ⟨rest, by rw [hrest, hd]⟩

end SourcesPage

namespace SourcesPage

/-- With the depth pre-filled as the number 0 the submission stops at the warning; once
`0` is typed into the depth field the same submission sends the crawl request; and a url
of three spaces is rejected. -/
theorem validation_rejects_exactly_witness :
    zeroDepth.maxDepth = .number 0 ∧
    handleSubmit zeroDepth (some (started "j1".toList)) =
      (zeroDepth, [Effect.toastWarn "Please fill in all fields.".toList]) ∧
    (handleSubmit (step zeroDepth (.setMaxDepth "0".toList)).1
        (some (started "j1".toList))).2 =
      [Effect.postCrawl ["https://example.com".toList] (.number 10) (.text "0".toList),
       Effect.toastInfo "Crawl started".toList] ∧
    handleSubmit { filled with url := "   ".toList } (some (started "j1".toList)) =
      ({ filled with url := "   ".toList },
        [Effect.toastWarn "Please fill in all fields.".toList]) := by
  have h1 := (validation_rejects_exactly zeroDepth (some (started "j1".toList))).2.2.2.1
    (by rfl)
  have h2 := (validation_rejects_exactly (step zeroDepth (.setMaxDepth "0".toList)).1
    (some (started "j1".toList))).2.2.2.2 (by decide) (by rfl) (by rfl)
  have h3 := (validation_rejects_exactly { filled with url := "   ".toList }
    (some (started "j1".toList))).2.2.1 (by decide)
  obtain ⟨rest, hrest⟩ := h2
  have h4 : (handleSubmit (step zeroDepth (.setMaxDepth "0".toList)).1
      (some (started "j1".toList))).2 =
      [Effect.postCrawl ["https://example.com".toList] (.number 10) (.text "0".toList),
       Effect.toastInfo "Crawl started".toList] := by rfl
  exact ⟨by rfl, h1.1, h4, h3⟩

end SourcesPage

/-! ## The poller, one request at a time -/

namespace SourcesPage

/-- When the interval fires, the invocation takes the pending and running jobs of the
current job map: the scheduled callback is the one of the latest render. -/
theorem fire_eq (p : Page) (h : Inv p.st) :
    fire p =
      (match activeJobs p.st.jobs with
        | [] => (p, [])
        | jobId :: rest =>
          ({ p with inflight := p.inflight ++ [jobId :: rest] },
            [Effect.getIngestionStatus jobId])) := by
  obtain ⟨ht, ha⟩ := h
  cases hi : p.st.intervalRef with
  | none =>
    rw [hi] at ht ha
    have hnil : activeJobs p.st.jobs = [] :=
      activeJobs_eq_nil p.st.jobs (by simpa using ha.symm)
    simp only [fire, ht, hnil]
  | some hd =>
    rw [hi] at ht ha
    have hact : hasActiveJobs p.st.jobs = true := by simpa using ha.symm
    obtain ⟨j, hj⟩ := (hasActiveJobs_iff p.st.jobs).mp hact
    simp only [fire, ht]
    cases hl : activeJobs p.st.jobs with
    | nil => rw [hl] at hj; cases hj
    | cons jobId rest => rfl

theorem settleOne_inv (jobId : JobId) (resp : Option Job) (st : State) (h : Inv st) :
    Inv (settleOne jobId resp st).1 := by
  cases resp with
  | none => exact h
  | some d => exact setJobs_inv _ st h.tracked

theorem settleOne_get_self (jobId : JobId) (d : Job) (st : State) :
    (settleOne jobId (some d) st).1.jobs.get jobId = some d := by
  simp only [settleOne]
  rw [setJobs_jobs]
  exact Jobs.get_set_self _ _ _

theorem settleOne_get_other (jobId k : JobId) (resp : Option Job) (st : State)
    (h : k ≠ jobId) : (settleOne jobId resp st).1.jobs.get k = st.jobs.get k := by
  cases resp with
  | none => rfl
  | some d =>
    simp only [settleOne]
    rw [setJobs_jobs]
    exact Jobs.get_set_other _ _ _ _ h

theorem settleOne_no_request (jobId : JobId) (resp : Option Job) (st : State) (k : JobId) :
    Effect.getIngestionStatus k ∉ (settleOne jobId resp st).2 := by
  cases resp with
  | none => simp [settleOne]
  | some d =>
    simp only [settleOne]
    split <;> simp

/-- The settling of a status request asks for one refresh when the request succeeded with
a completed or failed status, and for none otherwise. -/
theorem settleOne_refreshCount (jobId : JobId) (resp : Option Job) (st : State) :
    refreshCount (settleOne jobId resp st).2 = refreshDue resp := by
  cases resp with
  | none => simp [settleOne, refreshCount, refreshDue]
  | some d =>
    simp only [settleOne, isTerminal, refreshDue]
    split <;> simp [refreshCount]

theorem mountedPage_inv : PageInv mountedPage :=
  ⟨mounted_inv, fun l hl => by cases hl⟩

theorem astep_inv (p : Page) (e : Async) (h : PageInv p) : PageInv (astep p e).1 := by
  obtain ⟨hinv, hnd⟩ := h
  cases e with
  | page e => exact ⟨step_inv p.st e hinv, hnd⟩
  | fires =>
    simp only [astep]
    rw [fire_eq p hinv]
    cases hact : activeJobs p.st.jobs with
    | nil => exact ⟨hinv, hnd⟩
    | cons jobId rest =>
      refine ⟨hinv, ?_⟩
      intro l hl
      rcases List.mem_append.mp hl with hl | hl
      · exact hnd l hl
      · rw [List.mem_singleton] at hl
        rw [hl, ← hact]
        exact activeJobs_nodup _
  | settles i resp =>
    simp only [astep, settle]
    cases hi : p.inflight[i]? with
    | none => exact ⟨hinv, hnd⟩
    | some l =>
      cases l with
      | nil => exact ⟨hinv, hnd⟩
      | cons jobId rest =>
        have hl : (jobId :: rest).Nodup := hnd _ (List.getElem?_mem hi)
        cases rest with
        | nil =>
          exact ⟨settleOne_inv jobId resp p.st hinv,
            fun l hl2 => hnd l (List.mem_of_mem_eraseIdx hl2)⟩
        | cons next rest2 =>
          refine ⟨settleOne_inv jobId resp p.st hinv, ?_⟩
          intro l hl2
          rcases List.mem_or_eq_of_mem_set hl2 with hl2 | hl2
          · exact hnd l hl2
          · rw [hl2]; exact (List.nodup_cons.mp hl).2

theorem arun_inv (evs : List Async) (p : Page) (h : PageInv p) : PageInv (arun evs p).1 := by
  induction evs generalizing p with
  | nil => exact h
  | cons e rest ih => exact ih _ (astep_inv p e h)

end SourcesPage

namespace SourcesPage

theorem mem_awaited (p : Page) (k : JobId) : k ∈ awaited p ↔ ∃ l ∈ p.inflight, k ∈ l := by
  simp [awaited, List.mem_flatten]

theorem not_mem_activeJobs_of_get_eq (jobs jobs2 : Jobs) (j : JobId)
    (h : jobs2.get j = jobs.get j) (hj : j ∉ activeJobs jobs) : j ∉ activeJobs jobs2 := by
  intro hm
  rw [mem_activeJobs, h] at hm
  exact hj ((mem_activeJobs jobs j).mpr hm)

/-- A job that is neither pending or running nor held by an invocation under way is left
alone by an event of the poller: it is not requested, its stored state is the same, it is
still neither pending or running nor held, and the request that settles is not its own. -/
theorem astep_poll_quiet (p : Page) (h : PageInv p) (j : JobId)
    (hact : j ∉ activeJobs p.st.jobs) (hheld : j ∉ awaited p) (e : Async)
    (he : e.isPoll = true) :
    Effect.getIngestionStatus j ∉ (astep p e).2 ∧
    (astep p e).1.st.jobs.get j = p.st.jobs.get j ∧
    j ∉ activeJobs (astep p e).1.st.jobs ∧
    j ∉ awaited (astep p e).1 ∧
    settledJob p e ≠ some j := by
  cases e with
  | page e => cases he
  | fires =>
    simp only [astep]
    rw [fire_eq p h.1]
    cases hl : activeJobs p.st.jobs with
    | nil => exact ⟨List.not_mem_nil _, rfl, hact, hheld, by simp [settledJob]⟩
    | cons jobId rest =>
      have hne : j ≠ jobId := by
        intro heq
        apply hact
        rw [hl, heq]
        exact List.mem_cons_self _ _
      refine ⟨?_, rfl, hact, ?_, by simp [settledJob]⟩
      · intro hm
        rw [List.mem_singleton] at hm
        exact hne ((Effect.getIngestionStatus.injEq j jobId).mp hm)
      · intro hm
        obtain ⟨l, hl2, hjl⟩ := (mem_awaited _ j).mp hm
        rcases List.mem_append.mp hl2 with hl2 | hl2
        · exact hheld ((mem_awaited p j).mpr ⟨l, hl2, hjl⟩)
        · rw [List.mem_singleton] at hl2
          rw [hl2, ← hl] at hjl
          exact hact hjl
  | settles i resp =>
    simp only [astep, settle, settledJob]
    cases hi : p.inflight[i]? with
    | none => exact ⟨List.not_mem_nil _, rfl, hact, hheld, by simp⟩
    | some l =>
      cases l with
      | nil => exact ⟨List.not_mem_nil _, rfl, hact, hheld, by simp⟩
      | cons jobId rest =>
        have hmem : jobId :: rest ∈ p.inflight := List.getElem?_mem hi
        have hne : j ≠ jobId := by
          intro heq
          exact hheld ((mem_awaited p j).mpr ⟨_, hmem, by rw [heq]; exact List.mem_cons_self _ _⟩)
        have hrest : j ∉ rest := fun hm =>
          hheld ((mem_awaited p j).mpr ⟨_, hmem, List.mem_cons_of_mem _ hm⟩)
        have hget := settleOne_get_other jobId j resp p.st hne
        have hact2 := not_mem_activeJobs_of_get_eq p.st.jobs _ j hget hact
        have hsj : (some (jobId :: rest)).bind List.head? ≠ some j := by
          simp only [Option.some_bind, List.head?_cons, ne_eq, Option.some.injEq]
          exact fun heq => hne heq.symm
        cases rest with
        | nil =>
          refine ⟨settleOne_no_request jobId resp p.st j, hget, hact2, ?_, hsj⟩
          intro hm
          obtain ⟨l, hl2, hjl⟩ := (mem_awaited _ j).mp hm
          exact hheld ((mem_awaited p j).mpr ⟨l, List.mem_of_mem_eraseIdx hl2, hjl⟩)
        | cons next rest2 =>
          refine ⟨?_, hget, hact2, ?_, hsj⟩
          · intro hm
            rcases List.mem_append.mp hm with hm | hm
            · exact settleOne_no_request jobId resp p.st j hm
            · rw [List.mem_singleton] at hm
              have hjn : j = next := (Effect.getIngestionStatus.injEq j next).mp hm
              exact hrest (by rw [hjn]; exact List.mem_cons_self _ _)
          · intro hm
            obtain ⟨l, hl2, hjl⟩ := (mem_awaited _ j).mp hm
            rcases List.mem_or_eq_of_mem_set hl2 with hl2 | hl2
            · exact hheld ((mem_awaited p j).mpr ⟨l, hl2, hjl⟩)
            · rw [hl2] at hjl
              exact hrest hjl

theorem arun_poll_quiet (polls : List Async) (p : Page) (h : PageInv p) (j : JobId)
    (hact : j ∉ activeJobs p.st.jobs) (hheld : j ∉ awaited p)
    (hp : ∀ e ∈ polls, e.isPoll = true) :
    Effect.getIngestionStatus j ∉ (arun polls p).2 ∧
    (arun polls p).1.st.jobs.get j = p.st.jobs.get j ∧
    refreshesOf j polls p = 0 := by
  induction polls generalizing p with
  | nil => exact ⟨List.not_mem_nil _, rfl, rfl⟩
  | cons e rest ih =>
    obtain ⟨h1, h2, h3, h4, h5⟩ :=
      astep_poll_quiet p h j hact hheld e (hp e (List.mem_cons_self _ _))
    obtain ⟨h6, h7, h8⟩ := ih _ (astep_inv p e h) h3 h4
      (fun x hx => hp x (List.mem_cons_of_mem _ hx))
    refine ⟨?_, h7.trans h2, ?_⟩
    · intro hm
      simp only [arun, List.mem_append] at hm
      exact hm.elim h1 h6
    · simp only [refreshesOf, if_neg h5, h8]

end SourcesPage

/-! ## Polling: completed and failed jobs -/

namespace SourcesPage

/-- The settling of a request writes no job but the one whose request settled. -/
theorem settle_writes_own_job (p : Page) (i : Nat) (resp : Option Job) (k : JobId)
    (hk : settledJob p (.settles i resp) ≠ some k) :
    (astep p (.settles i resp)).1.st.jobs.get k = p.st.jobs.get k := by
  simp only [astep, settle, settledJob] at hk ⊢
  cases hi : p.inflight[i]? with
  | none => rfl
  | some l =>
    cases l with
    | nil => rfl
    | cons jobId rest =>
      have hne : k ≠ jobId := by
        intro heq
        apply hk
        rw [hi, heq]
        rfl
      cases rest with
      | nil => exact settleOne_get_other jobId k resp p.st hne
      | cons next rest2 => exact settleOne_get_other jobId k resp p.st hne

/-- With at most one invocation under way, a job whose request settles with a completed or
failed status is stored with that status and is no longer held by any invocation. -/
theorem settle_retires (p : Page) (h : PageInv p) (hlen : p.inflight.length ≤ 1) (i : Nat)
    (d : Job) (k : JobId) (hk : settledJob p (.settles i (some d)) = some k)
    (hterm : isTerminal d = true) :
    (astep p (.settles i (some d))).1.st.jobs.get k = some d ∧
    k ∉ activeJobs (astep p (.settles i (some d))).1.st.jobs ∧
    k ∉ awaited (astep p (.settles i (some d))).1 := by
  obtain ⟨st, inflight⟩ := p
  cases inflight with
  | nil => simp [settledJob] at hk
  | cons l ls =>
    cases ls with
    | cons m ms => simp at hlen
    | nil =>
      cases i with
      | succ n => simp [settledJob] at hk
      | zero =>
        cases l with
        | nil => simp [settledJob] at hk
        | cons jobId rest =>
          have hjk : jobId = k := by simpa [settledJob] using hk
          subst hjk
          have hnd : (jobId :: rest).Nodup := h.2 _ (List.mem_singleton.mpr rfl)
          have hnot : jobId ∉ rest := (List.nodup_cons.mp hnd).1
          have hget := settleOne_get_self jobId d st
          cases rest with
          | nil =>
            refine ⟨hget, not_active_of_terminal _ jobId d hget hterm, ?_⟩
            simp [astep, settle, awaited]
          | cons next rest2 =>
            refine ⟨hget, not_active_of_terminal _ jobId d hget hterm, ?_⟩
            simpa [astep, settle, awaited] using hnot

/-- **C6, counterexample.** Two invocations of the poller are under way for `j1`.  The
first response stores `j1` as completed; the response of the second invocation, which
reports `j1` as running, is then stored all the same: an update is applied to a job after
it reached a terminal status, and the polling starts again. -/
theorem terminal_job_written_again :
    (arun [Async.settles 0 (some doneJob)] twoInvocations).1.st.jobs.get "j1".toList =
      some doneJob ∧
    isTerminal doneJob = true ∧
    (arun [Async.settles 0 (some doneJob), Async.settles 0 (some runningJob)]
      twoInvocations).1.st.jobs.get "j1".toList = some runningJob ∧
    (arun [Async.settles 0 (some doneJob), Async.settles 0 (some runningJob)]
      twoInvocations).1.st.timers.length = 1 := by
  refine ⟨by rfl, by rfl, by rfl, by rfl⟩

/-- **C6, amended.** In any state the page can reach, requests of the poller taken one at
a time, for a job stored as completed or failed: an invocation that fires takes only the
pending and running jobs of the current job map, so it does not take that job and does
not request it; if no invocation under way holds the job, no sequence of events of the
poller requests it or changes its stored state.  A settling request writes only its own
job, and with at most one invocation under way a job whose request settles with a
completed or failed status is stored so and held by no invocation afterwards. -/
theorem terminal_job_left_alone (evs : List Async) (j : JobId) (job : Job)
    (hget : (arun evs mountedPage).1.st.jobs.get j = some job)
    (hterm : isTerminal job = true) :
    (j ∉ activeJobs (arun evs mountedPage).1.st.jobs ∧
      (∀ l ∈ (astep (arun evs mountedPage).1 .fires).1.inflight,
        l ∈ (arun evs mountedPage).1.inflight ∨
          l = activeJobs (arun evs mountedPage).1.st.jobs) ∧
      Effect.getIngestionStatus j ∉ (astep (arun evs mountedPage).1 .fires).2) ∧
    (j ∉ awaited (arun evs mountedPage).1 →
      ∀ polls : List Async, (∀ e ∈ polls, e.isPoll = true) →
        Effect.getIngestionStatus j ∉ (arun polls (arun evs mountedPage).1).2 ∧
        (arun polls (arun evs mountedPage).1).1.st.jobs.get j = some job) ∧
    (∀ (i : Nat) (resp : Option Job) (k : JobId),
      settledJob (arun evs mountedPage).1 (.settles i resp) ≠ some k →
      (astep (arun evs mountedPage).1 (.settles i resp)).1.st.jobs.get k =
        (arun evs mountedPage).1.st.jobs.get k) ∧
    (∀ (i : Nat) (d : Job) (k : JobId), (arun evs mountedPage).1.inflight.length ≤ 1 →
      settledJob (arun evs mountedPage).1 (.settles i (some d)) = some k →
      isTerminal d = true →
      (astep (arun evs mountedPage).1 (.settles i (some d))).1.st.jobs.get k = some d ∧
      k ∉ awaited (astep (arun evs mountedPage).1 (.settles i (some d))).1) := by
  have hinv := arun_inv evs mountedPage mountedPage_inv
  generalize (arun evs mountedPage).1 = p at hinv hget
  have hna := not_active_of_terminal _ j job hget hterm
  refine ⟨⟨hna, ?_, ?_⟩, ?_, ?_, ?_⟩
  · intro l hl
    simp only [astep] at hl
    rw [fire_eq p hinv.1] at hl
    cases hact : activeJobs p.st.jobs with
    | nil =>
      rw [hact] at hl
      exact Or.inl hl
    | cons jobId rest =>
      rw [hact] at hl
      rcases List.mem_append.mp hl with hl | hl
      · exact Or.inl hl
      · exact Or.inr (List.mem_singleton.mp hl)
  · simp only [astep]
    rw [fire_eq p hinv.1]
    cases hact : activeJobs p.st.jobs with
    | nil => exact List.not_mem_nil _
    | cons jobId rest =>
      intro hm
      rw [List.mem_singleton] at hm
      have hjj : j = jobId := (Effect.getIngestionStatus.injEq j jobId).mp hm
      apply hna
      rw [hact, hjj]
      exact List.mem_cons_self _ _
  · intro hheld polls hp
    obtain ⟨h1, h2, _⟩ := arun_poll_quiet polls p hinv j hna hheld hp
    exact ⟨h1, h2.trans hget⟩
  · intro i resp k hk
    exact settle_writes_own_job p i resp k hk
  · intro i d k hlen hk hd
    obtain ⟨h1, _, h3⟩ := settle_retires p hinv hlen i d k hk hd
    exact ⟨h1, h3⟩

/-- With `job-a` stored as completed and `job-b` as running, no invocation under way: the
interval fires and requests the status of `job-b` only; whatever settles, `job-a` is
neither requested nor changed. -/
theorem terminal_job_left_alone_witness :
    (arun oneDoneOneRunning mountedPage).1.st.jobs.get "job-a".toList = some doneJob ∧
    (arun oneDoneOneRunning mountedPage).1.st.jobs.get "job-b".toList = some runningJob ∧
    (arun oneDoneOneRunning mountedPage).1.st.timers.length = 1 ∧
    (arun [Async.fires, Async.settles 0 (some twoStepsJob), Async.fires]
      (arun oneDoneOneRunning mountedPage).1).2 =
      [Effect.getIngestionStatus "job-b".toList, Effect.getIngestionStatus "job-b".toList] ∧
    (arun [Async.fires, Async.settles 0 (some twoStepsJob), Async.fires]
      (arun oneDoneOneRunning mountedPage).1).1.st.jobs.get "job-a".toList = some doneJob := by
  have h := (terminal_job_left_alone oneDoneOneRunning "job-a".toList doneJob
    (by rfl) (by rfl)).2.1
    (by decide) [Async.fires, Async.settles 0 (some twoStepsJob), Async.fires] (by decide)
  exact ⟨by rfl, by rfl, by rfl, by rfl, h.2⟩

end SourcesPage

/-! ## The polling timer, requests taken one at a time -/

namespace SourcesPage

theorem fire_of_no_timer (p : Page) (h : p.st.timers = []) : fire p = (p, []) := by
  simp only [fire, h]

theorem astep_all_quiet (p : Page) (h : PageInv p) (hno : hasActiveJobs p.st.jobs = false)
    (hnone : p.inflight = []) (e : Async) (he : e.isSubmit = false) :
    (∀ j, Effect.getIngestionStatus j ∉ (astep p e).2) ∧
    hasActiveJobs (astep p e).1.st.jobs = false ∧
    (astep p e).1.inflight = [] := by
  cases e with
  | page e =>
    obtain ⟨h1, h2⟩ := step_quiet p.st h.1 hno e he
    exact ⟨h1, h2, hnone⟩
  | fires =>
    simp only [astep]
    rw [fire_eq p h.1, activeJobs_eq_nil p.st.jobs hno]
    exact ⟨fun _ => List.not_mem_nil _, hno, hnone⟩
  | settles i resp =>
    simp only [astep, settle, hnone, List.getElem?_nil]
    exact ⟨fun _ => List.not_mem_nil _, hno, trivial⟩

theorem arun_all_quiet (evs : List Async) (p : Page) (h : PageInv p)
    (hno : hasActiveJobs p.st.jobs = false) (hnone : p.inflight = [])
    (he : ∀ e ∈ evs, e.isSubmit = false) :
    ∀ j, Effect.getIngestionStatus j ∉ (arun evs p).2 := by
  induction evs generalizing p with
  | nil => exact fun _ => List.not_mem_nil _
  | cons e rest ih =>
    obtain ⟨h1, h2, h3⟩ := astep_all_quiet p h hno hnone e (he e (List.mem_cons_self _ _))
    have h4 := ih _ (astep_inv p e h) h2 h3 (fun x hx => he x (List.mem_cons_of_mem _ hx))
    intro j hm
    simp only [arun, List.mem_append] at hm
    exact hm.elim (h1 j) (h4 j)

/-- **C8, counterexample.** `job-a` and `job-b` were both stored as completed by a first
invocation of the poller: no job is pending or running and no timer is scheduled.  A
second invocation, which fired before, is still under way; when its request for `job-a`
settles it goes on and requests the status of `job-b`, although no job was registered;
and if that response reports `job-a` as running, a timer is scheduled again. -/
theorem status_request_without_active_job :
    hasActiveJobs lateInvocation.st.jobs = false ∧
    lateInvocation.st.timers = [] ∧
    lateInvocation.st.jobs.keys = ["job-a".toList, "job-b".toList] ∧
    (astep lateInvocation (.settles 0 (some doneJob))).2 =
      [Effect.getSources, Effect.getIngestionStatus "job-b".toList] ∧
    (astep lateInvocation (.settles 0 (some doneJob))).1.st.jobs.keys =
      ["job-a".toList, "job-b".toList] ∧
    (astep lateInvocation (.settles 0 (some runningJob))).1.st.timers.length = 1 := by
  refine ⟨by rfl, by rfl, by rfl, by rfl, by rfl, by rfl⟩

/-- **C8, amended.** In every state the page can reach, requests of the poller taken one
at a time, an interval timer is scheduled exactly when some job is pending or running,
and there is never more than one.  So when an event leaves no such job, no timer remains
and a firing does nothing; if moreover no invocation is under way, no status request is
issued by any sequence of events that contains no submission; and a submission that
registers a job leaves exactly one timer scheduled. -/
theorem polling_timer_lifecycle (evs : List Async) :
    (((arun evs mountedPage).1.st.timers ≠ [] ↔
        hasActiveJobs (arun evs mountedPage).1.st.jobs = true) ∧
      (arun evs mountedPage).1.st.timers.length ≤ 1) ∧
    (∀ e : Async, hasActiveJobs (astep (arun evs mountedPage).1 e).1.st.jobs = false →
      (astep (arun evs mountedPage).1 e).1.st.timers = [] ∧
      astep (astep (arun evs mountedPage).1 e).1 .fires =
        ((astep (arun evs mountedPage).1 e).1, [])) ∧
    (hasActiveJobs (arun evs mountedPage).1.st.jobs = false →
      (arun evs mountedPage).1.inflight = [] →
      ∀ later : List Async, (∀ e ∈ later, e.isSubmit = false) →
        ∀ j, Effect.getIngestionStatus j ∉ (arun later (arun evs mountedPage).1).2) ∧
    (∀ (r : CrawlResponse) (j : JobId), rejects (arun evs mountedPage).1.st = false →
      r.status ≠ skipped → r.job_id = some j → j ≠ [] →
      (astep (arun evs mountedPage).1 (.page (.submit (some r)))).1.st.timers.length = 1) := by
  have hinv := arun_inv evs mountedPage mountedPage_inv
  generalize (arun evs mountedPage).1 = p at hinv
  refine ⟨timers_of_inv p.st hinv.1, ?_, ?_, ?_⟩
  · intro e hno
    have hinv2 := astep_inv p e hinv
    have ht : (astep p e).1.st.timers = [] := by
      by_contra hne
      have := (timers_of_inv _ hinv2.1).1.mp hne
      rw [hno] at this
      cases this
    exact ⟨ht, fire_of_no_timer _ ht⟩
  · intro hno hnone later hl
    exact arun_all_quiet later p hinv hno hnone hl
  · intro r j hv hs hj hne
    have hinv2 := step_inv p.st (.submit (some r)) hinv.1
    obtain ⟨hjobs, _⟩ := handleSubmit_started p.st r j hv hs hj hne
    have hact : hasActiveJobs (step p.st (.submit (some r))).1.jobs = true := by
      rw [hasActiveJobs_iff]
      refine ⟨j, (mem_activeJobs _ j).mpr ⟨placeholderJob, ?_, by decide⟩⟩
      show (handleSubmit p.st (some r)).1.jobs.get j = some placeholderJob
      rw [hjobs]
      exact Jobs.get_set_self _ _ _
    obtain ⟨h3, h4⟩ := timers_of_inv _ hinv2
    have h5 := h3.mpr hact
    have h6 : (step p.st (.submit (some r))).1.timers.length ≠ 0 := by
      intro h0
      exact h5 (List.length_eq_zero.mp h0)
    show (step p.st (.submit (some r))).1.timers.length = 1
    omega

/-- The lifecycle on an example: no timer before `j1` is registered, one after; once the
only invocation has stored `j1` as completed no timer remains and no invocation is under
way, and the firing, the late response and the reset that follow issue no status
request. -/
theorem polling_timer_lifecycle_witness :
    (arun (registersJob.take 2) mountedPage).1.st.timers = [] ∧
    (arun registersJob mountedPage).1.st.timers.length = 1 ∧
    (arun completesJob mountedPage).1.st.timers = [] ∧
    (arun completesJob mountedPage).1.inflight = [] ∧
    (∀ j, Effect.getIngestionStatus j ∉
      (arun [Async.fires, Async.settles 0 (some runningJob),
             Async.page (Event.reset true (some "ok".toList)), Async.fires]
        (arun completesJob mountedPage).1).2) := by
  have h1 := (polling_timer_lifecycle (registersJob.take 2)).2.2.2
    (started "j1".toList) "j1".toList (by decide) (by decide) rfl (by decide)
  have h2 := (polling_timer_lifecycle completesJob).2.2.1 (by rfl) (by rfl)
    [Async.fires, Async.settles 0 (some runningJob),
     Async.page (Event.reset true (some "ok".toList)), Async.fires] (by decide)
  exact ⟨by rfl, h1, by rfl, by rfl, h2⟩

end SourcesPage

/-! ## Refreshes of the source list -/

namespace SourcesPage

theorem refreshCount_append (xs ys : List Effect) :
    refreshCount (xs ++ ys) = refreshCount xs + refreshCount ys := by
  simp [refreshCount, List.count_append]

theorem fire_refreshCount (p : Page) : refreshCount (astep p .fires).2 = 0 := by
  simp only [astep, fire]
  split
  · rfl
  · split <;> rfl

/-- The settling of the request of job `k` asks for one refresh when the response reports
a completed or failed status and for none otherwise, and stores the response. -/
theorem settle_refreshCount (p : Page) (i : Nat) (resp : Option Job) (k : JobId)
    (hk : settledJob p (.settles i resp) = some k) :
    refreshCount (astep p (.settles i resp)).2 = refreshDue resp ∧
    ∀ d, resp = some d → (astep p (.settles i resp)).1.st.jobs.get k = some d := by
  simp only [astep, settle, settledJob] at hk ⊢
  cases hi : p.inflight[i]? with
  | none => simp [hi] at hk
  | some l =>
    cases l with
    | nil => simp [hi] at hk
    | cons jobId rest =>
      have hjk : jobId = k := by simpa [hi] using hk
      subst hjk
      cases rest with
      | nil =>
        refine ⟨settleOne_refreshCount jobId resp p.st, ?_⟩
        intro d hd
        rw [hd]
        exact settleOne_get_self jobId d p.st
      | cons next rest2 =>
        refine ⟨?_, ?_⟩
        · show refreshCount ((settleOne jobId resp p.st).2 ++
            [Effect.getIngestionStatus next]) = _
          rw [refreshCount_append, settleOne_refreshCount]
          rfl
        · intro d hd
          rw [hd]
          exact settleOne_get_self jobId d p.st

theorem settle_length (p : Page) (i : Nat) (resp : Option Job) :
    (astep p (.settles i resp)).1.inflight.length ≤ p.inflight.length := by
  simp only [astep, settle]
  cases hi : p.inflight[i]? with
  | none => exact Nat.le_refl _
  | some l =>
    cases l with
    | nil => exact Nat.le_refl _
    | cons jobId rest =>
      cases rest with
      | nil => exact (List.eraseIdx_sublist _ _).length_le
      | cons next rest2 => simp

/-- When the interval never fires while an invocation is under way, the settling requests
of a job ask for at most one refresh over any sequence of events of the poller. -/
theorem refreshesOf_le_one (polls : List Async) (p : Page) (h : PageInv p)
    (hlen : p.inflight.length ≤ 1) (j : JobId) (hp : ∀ e ∈ polls, e.isPoll = true)
    (hseq : nonOverlapping polls p = true) : refreshesOf j polls p ≤ 1 := by
  induction polls generalizing p with
  | nil => exact Nat.zero_le _
  | cons e rest ih =>
    have hpe := hp e (List.mem_cons_self _ _)
    have hprest : ∀ x ∈ rest, x.isPoll = true := fun x hx => hp x (List.mem_cons_of_mem _ hx)
    have hinv2 := astep_inv p e h
    simp only [nonOverlapping, Bool.and_eq_true] at hseq
    have hlen2 : (astep p e).1.inflight.length ≤ 1 := by
      cases e with
      | page e => cases hpe
      | fires =>
        have hempty : p.inflight = [] := by
          have := hseq.1
          simpa using this
        simp only [astep]
        rw [fire_eq p h.1]
        cases activeJobs p.st.jobs with
        | nil => exact hlen
        | cons jobId rest2 => simp [hempty]
      | settles i resp => exact Nat.le_trans (settle_length p i resp) hlen
    have hih := ih _ hinv2 hlen2 hprest hseq.2
    by_cases hsj : settledJob p e = some j
    · cases e with
      | page e => cases hpe
      | fires => simp [settledJob] at hsj
      | settles i resp =>
        obtain ⟨hcount, hstore⟩ := settle_refreshCount p i resp j hsj
        cases resp with
        | none =>
          simp only [refreshesOf, hsj, if_true, hcount, refreshDue]
          omega
        | some d =>
          by_cases hterm : isTerminal d = true
          · obtain ⟨_, hna, hnh⟩ := settle_retires p h hlen i d j hsj hterm
            have hzero := (arun_poll_quiet rest _ hinv2 j hna hnh hprest).2.2
            simp only [refreshesOf, hsj, if_true, hcount, refreshDue, hterm, hzero]
            exact Nat.le_refl _
          · simp only [refreshesOf, hsj, if_true, hcount, refreshDue, hterm]
            simp only [Bool.false_eq_true, if_false]
            omega
    · simp only [refreshesOf, if_neg hsj]
      omega

end SourcesPage

namespace SourcesPage

/-- **C9, counterexample.** The job `j1` is pending and two invocations of the poller are
under way for it.  Both receive the completed status, and both ask for a refresh of the
source list: two refreshes for the one job that completed once. -/
theorem two_refreshes_for_one_job :
    twoInvocations.st.jobs.get "j1".toList = some placeholderJob ∧
    (arun [Async.settles 0 (some doneJob), Async.settles 0 (some doneJob)]
      twoInvocations).2 = [Effect.getSources, Effect.getSources] ∧
    refreshCount (arun [Async.settles 0 (some doneJob), Async.settles 0 (some doneJob)]
      twoInvocations).2 = 2 ∧
    refreshesOf "j1".toList
      [Async.fires, Async.fires, Async.settles 0 (some doneJob),
       Async.settles 0 (some doneJob)] (arun registersJob mountedPage).1 = 2 := by
  refine ⟨by rfl, by rfl, by rfl, by rfl⟩

/-- **C9, amended.** In any state the page can reach, requests of the poller taken one at
a time: the firing of the interval asks for no refresh; the settling of a status request
asks for exactly one refresh when the response reports a completed or failed status and
for none otherwise, and the job is stored with that response; an invocation whose
requests all settle before anything else happens asks for as many refreshes as there are
pending or running jobs whose request succeeds with a completed or failed status.  A job
that is neither pending or running nor held by an invocation under way causes no refresh
over any sequence of events of the poller, and when the interval never fires while an
invocation is under way a job causes at most one refresh over any such sequence. -/
theorem refresh_per_terminal_response (evs : List Async) (j : JobId) :
    refreshCount (astep (arun evs mountedPage).1 .fires).2 = 0 ∧
    (∀ (i : Nat) (resp : Option Job) (k : JobId),
      settledJob (arun evs mountedPage).1 (.settles i resp) = some k →
      refreshCount (astep (arun evs mountedPage).1 (.settles i resp)).2 = refreshDue resp ∧
      ∀ d, resp = some d →
        (astep (arun evs mountedPage).1 (.settles i resp)).1.st.jobs.get k = some d) ∧
    (∀ fetch : JobId → Option Job,
      refreshCount (astep (arun evs mountedPage).1 (.page (.tick fetch))).2 =
        ((activeJobs (arun evs mountedPage).1.st.jobs).filter (endsWith fetch)).length) ∧
    (j ∉ activeJobs (arun evs mountedPage).1.st.jobs → j ∉ awaited (arun evs mountedPage).1 →
      ∀ polls : List Async, (∀ e ∈ polls, e.isPoll = true) →
        refreshesOf j polls (arun evs mountedPage).1 = 0) ∧
    ((arun evs mountedPage).1.inflight.length ≤ 1 →
      ∀ polls : List Async, (∀ e ∈ polls, e.isPoll = true) →
        nonOverlapping polls (arun evs mountedPage).1 = true →
        refreshesOf j polls (arun evs mountedPage).1 ≤ 1) := by
  have hinv := arun_inv evs mountedPage mountedPage_inv
  generalize (arun evs mountedPage).1 = p at hinv
  refine ⟨fire_refreshCount p, fun i resp k hk => settle_refreshCount p i resp k hk, ?_, ?_, ?_⟩
  · intro fetch
    show refreshCount (step p.st (.tick fetch)).2 = _
    rw [tick_eq p.st hinv.1, pollLoop_refreshCount]
  · intro hna hnh polls hp
    exact (arun_poll_quiet polls p hinv j hna hnh hp).2.2
  · intro hlen polls hp hseq
    exact refreshesOf_le_one polls p hinv hlen j hp hseq

/-- The end-to-end example: `j1` is registered as pending; the interval fires and the
response reports it as running with two sub-steps, which asks for no refresh; the interval
fires again and the response reports it as completed, which asks for one refresh.  There
is one refresh in all, and the display list is then the sources alone. -/
theorem refresh_per_terminal_response_witness :
    (arun registersJob mountedPage).1.st.jobs.get "j1".toList = some placeholderJob ∧
    (arun [Async.fires, Async.settles 0 (some twoStepsJob)]
      (arun registersJob mountedPage).1).2 = [Effect.getIngestionStatus "j1".toList] ∧
    (arun [Async.fires, Async.settles 0 (some twoStepsJob), Async.fires,
           Async.settles 0 (some doneJob)] (arun registersJob mountedPage).1).2 =
      [Effect.getIngestionStatus "j1".toList, Effect.getIngestionStatus "j1".toList,
       Effect.getSources] ∧
    refreshesOf "j1".toList
      [Async.fires, Async.settles 0 (some twoStepsJob), Async.fires,
       Async.settles 0 (some doneJob)] (arun registersJob mountedPage).1 = 1 ∧
    displayList [⟨"Example".toList, "https://example.com".toList⟩]
        (arun [Async.fires, Async.settles 0 (some twoStepsJob), Async.fires,
               Async.settles 0 (some doneJob)] (arun registersJob mountedPage).1).1.st.jobs =
      [sourceRow ⟨"Example".toList, "https://example.com".toList⟩] := by
  have hle := (refresh_per_terminal_response registersJob "j1".toList).2.2.2.2 (by decide)
    [Async.fires, Async.settles 0 (some twoStepsJob), Async.fires,
     Async.settles 0 (some doneJob)] (by decide) (by rfl)
  have hge : 1 ≤ refreshesOf "j1".toList
      [Async.fires, Async.settles 0 (some twoStepsJob), Async.fires,
       Async.settles 0 (some doneJob)] (arun registersJob mountedPage).1 := by decide
  exact ⟨by rfl, by rfl, by rfl, Nat.le_antisymm hle hge, by rfl⟩

end SourcesPage

/-! ## A tick handled in one go is one invocation left alone -/

namespace SourcesPage

theorem pollLoop_cons (fetch : JobId → Option Job) (jobId : JobId) (rest : List JobId)
    (st : State) :
    pollLoop fetch (jobId :: rest) st =
      ((pollLoop fetch rest (settleOne jobId (fetch jobId) st).1).1,
        Effect.getIngestionStatus jobId ::
          ((settleOne jobId (fetch jobId) st).2 ++
            (pollLoop fetch rest (settleOne jobId (fetch jobId) st).1).2)) := by
  cases hf : fetch jobId with
  | none => simp [pollLoop, settleOne, hf]
  | some d => simp [pollLoop, settleOne, hf]

theorem arun_settle_next (resp : Option Job) (jobId next : JobId) (rest2 : List JobId)
    (st : State) (tail : List Async) :
    arun (Async.settles 0 resp :: tail) { st := st, inflight := [jobId :: next :: rest2] } =
      ((arun tail { st := (settleOne jobId resp st).1, inflight := [next :: rest2] }).1,
        ((settleOne jobId resp st).2 ++ [Effect.getIngestionStatus next]) ++
          (arun tail { st := (settleOne jobId resp st).1, inflight := [next :: rest2] }).2) :=
  rfl

theorem settles_in_turn (fetch : JobId → Option Job) (rest : List JobId) (jobId : JobId)
    (st : State) :
    arun ((jobId :: rest).map (fun k => Async.settles 0 (fetch k)))
        { st := st, inflight := [jobId :: rest] } =
      ({ st := (pollLoop fetch (jobId :: rest) st).1, inflight := [] },
        (pollLoop fetch (jobId :: rest) st).2.tail) := by
  induction rest generalizing jobId st with
  | nil =>
    rw [pollLoop_cons]
    simp [arun, astep, settle, pollLoop]
  | cons next rest2 ih =>
    have hih := ih next (settleOne jobId (fetch jobId) st).1
    rw [List.map_cons, arun_settle_next, hih, pollLoop_cons fetch jobId (next :: rest2) st,
      pollLoop_cons fetch next rest2]
    simp

/-- A tick handled in one go is the firing of the interval followed by the settling, in
turn and with nothing in between, of the requests of that invocation. -/
theorem tick_as_requests (p : Page) (h : Inv p.st) (hnone : p.inflight = [])
    (fetch : JobId → Option Job) :
    arun (Async.fires :: (activeJobs p.st.jobs).map (fun k => Async.settles 0 (fetch k))) p =
      astep p (.page (.tick fetch)) := by
  obtain ⟨st, inflight⟩ := p
  simp only at hnone h
  subst hnone
  simp only [astep, arun]
  rw [tick_eq st h, fire_eq _ h]
  cases hact : activeJobs st.jobs with
  | nil => simp [arun, pollLoop]
  | cons jobId rest =>
    simp only [List.nil_append]
    rw [settles_in_turn fetch rest jobId st, pollLoop_cons]
    simp

end SourcesPage

/-! ## The chat session: the temporary message when two queries overlap -/

namespace Chat

/-- **C11, evaluated.** The answer to a first query is streaming and its chunk `Partial `
is shown.  The Enter key sends the query again: the buffer is emptied while the first
stream stays open (one call of `send` waits for its response, one is reading).  The next
chunk `A2` of the first stream is then published alone: the messages hold exactly one
temporary message, the last one, but its text `A2` is neither the chunks received for
the first query, `Partial A2`, nor those received for the second, for which nothing has
arrived.  Without the second call the same chunk gives `Partial A2`. -/
theorem pending_text_mixes_queries :
    ((run (midAnswerEvents ++ [Event.keyPress "Enter".toList]) start).1.pending = 1 ∧
      (run (midAnswerEvents ++ [Event.keyPress "Enter".toList]) start).1.reading = 1 ∧
      (run (midAnswerEvents ++ [Event.keyPress "Enter".toList]) start).1.state.streamRef
        = []) ∧
    (run (midAnswerEvents ++ [Event.keyPress "Enter".toList,
        Event.read (some "A2".toList) false]) start).1.state.messages =
      [{ from_ := .user, text := "What is this site about?".toList, footer := none },
       { from_ := .user, text := "What is this site about?".toList, footer := none },
       { from_ := .bot_temp, text := "A2".toList, footer := none }] ∧
    tempCount (run (midAnswerEvents ++ [Event.keyPress "Enter".toList,
        Event.read (some "A2".toList) false]) start).1.state.messages = 1 ∧
    "A2".toList ≠ "Partial ".toList ++ "A2".toList ∧
    "A2".toList ≠ ([] : JSString) ∧
    (run (midAnswerEvents ++ [Event.read (some "A2".toList) false]) start).1.state.messages =
      [{ from_ := .user, text := "What is this site about?".toList, footer := none },
       { from_ := .bot_temp, text := "Partial A2".toList, footer := none }] := by
  refine ⟨⟨by rfl, by rfl, by rfl⟩, by rfl, by rfl, by decide, by decide, by rfl⟩

end Chat
